import Mathlib

/-!
Verification development for the Rocket Arena vehicular soccer game.
The repository snapshot holds the UAT suite (src/tests/uat.spec.js), the
Playwright configuration and the known issues document; the engine itself
(index.html) is absent, so every engine definition below is modelled from
spec.md (sections 3 to 4.6) and from the fixed corner guard pattern quoted
in issues.md. The discrete subsystems (match state machine, boost pads,
demolition timers) are embedded over the rationals; the continuous
geometry and physics are embedded over the reals.
-/

namespace RocketArena

open Classical

/-- Modelled from the spec: the two scoring sides; onGoal for the player
side increments the orange counter, for the ai side the blue counter
(engine code absent from the snapshot). -/
inductive Side where
  | player
  | ai
deriving DecidableEq

/-- Modelled from the spec: the match phases of section 4.6
(engine code absent from the snapshot). -/
inductive Phase where
  | menu
  | countdown
  | playing
  | goal
  | overtime_announce
  | gameover
deriving DecidableEq

/-- Modelled from the spec: MatchState of section 3, with the score kept as
two counters (orange, blue), a clock, an optional finite duration and the
golden goal flag (engine code absent from the snapshot). -/
structure MatchState where
  phase : Phase
  scoreO : Nat
  scoreB : Nat
  gameTime : Rat
  duration : Option Rat
  overtime : Bool
deriving DecidableEq

/-- Modelled from the spec: onGoal(side) from playing increments the scoring
side counter and moves the phase to goal (engine code absent from the
snapshot). -/
def onGoal (side : Side) (s : MatchState) : MatchState :=
  if s.phase = .playing then
    { s with
      phase := .goal
      scoreO := if side = .player then s.scoreO + 1 else s.scoreO
      scoreB := if side = .ai then s.scoreB + 1 else s.scoreB }
  else s

/-- Modelled from the spec: the return to play after a goal celebration
(engine code absent from the snapshot). -/
def setPlaying (s : MatchState) : MatchState :=
  { s with phase := .playing }

/-- Modelled from the spec: endGame moves the match to the terminal gameover
phase; the outcome label is an external display concern (engine code absent
from the snapshot). -/
def endGame (s : MatchState) : MatchState :=
  { s with phase := .gameover }

/-- Modelled from the spec: the per frame clock advance during play. With a
finite duration and outside overtime the clock counts down; reaching the
limit ends the game on unequal scores and announces overtime on equal
scores, switching the clock to golden goal mode (engine code absent from
the snapshot). -/
def tickClock (dt : Rat) (s : MatchState) : MatchState :=
  if s.phase = .playing then
    match s.duration with
    | none => { s with gameTime := s.gameTime + dt }
    | some _ =>
      if s.overtime = true then { s with gameTime := s.gameTime + dt }
      else if s.gameTime - dt ≤ 0 then
        if s.scoreO = s.scoreB then
          { s with phase := .overtime_announce, overtime := true, gameTime := 0 }
        else { endGame s with gameTime := 0 }
      else { s with gameTime := s.gameTime - dt }
  else s

/-- Modelled from the spec: after the overtime announcement delay the match
returns to playing in golden goal mode (engine code absent from the
snapshot). -/
def finishOvertimeAnnounce (s : MatchState) : MatchState :=
  if s.phase = .overtime_announce then { s with phase := .playing } else s

/-- Modelled from the spec: a boost pad of section 3, a planar position, a
size flag, an active flag and a respawn countdown (engine code absent from
the snapshot). -/
structure Pad where
  padX : Rat
  padZ : Rat
  big : Bool
  active : Bool
  respawnT : Rat
deriving DecidableEq

/-- Modelled from the spec: the squared pickup range of a pad; the spec
leaves the radius unspecified, two units is used here. -/
def PAD_RANGE_SQ : Rat := 4

/-- Modelled from the spec: the respawn delay started on pickup; the spec
leaves the durations unspecified, ten seconds for a big pad and four for a
small one are used here. -/
def respawnDuration (p : Pad) : Rat :=
  if p.big = true then 10 else 4

/-- Modelled from the spec: a car within pickup range of an active pad sets
its fuel to 100 on a big pad or adds 12 capped at 100 on a small pad, and
the pad deactivates and starts its respawn timer (engine code absent from
the snapshot). -/
def collectPad (fuel : Rat) (p : Pad) (carX carZ : Rat) : Rat × Pad :=
  if p.active = true ∧ (carX - p.padX)^2 + (carZ - p.padZ)^2 ≤ PAD_RANGE_SQ then
    (if p.big = true then 100 else min 100 (fuel + 12),
     { p with active := false, respawnT := respawnDuration p })
  else (fuel, p)

/-- Modelled from the spec: the per frame countdown of an inactive pad; the
pad reactivates exactly when the timer counts down through zero (engine
code absent from the snapshot). -/
def tickPad (dt : Rat) (p : Pad) : Pad :=
  if p.active = true then p
  else if p.respawnT - dt ≤ 0 then { p with active := true, respawnT := 0 }
  else { p with respawnT := p.respawnT - dt }

/-- Modelled from the spec: the demolition relevant slice of a car state,
the demolished flag, the respawn countdown and the velocity (engine code
absent from the snapshot). -/
structure DemoState where
  demolished : Bool
  timer : Rat
  velX : Rat
  velY : Rat
  velZ : Rat
deriving DecidableEq

/-- Modelled from the spec: the fixed demolition respawn duration, three
seconds in the reference behavior. -/
def DEMO_RESPAWN_TIME : Rat := 3

/-- Modelled from the spec: triggerDemo immediately sets the demolished
flag, zeroes the velocity and starts the respawn countdown (engine code
absent from the snapshot). -/
def triggerDemo (_d : DemoState) : DemoState :=
  { demolished := true, timer := DEMO_RESPAWN_TIME, velX := 0, velY := 0, velZ := 0 }

/-- Modelled from the spec: the per frame countdown of a demolished car;
the flag clears exactly when the timer counts down to zero or below
(engine code absent from the snapshot). -/
def tickDemo (dt : Rat) (d : DemoState) : DemoState :=
  if d.demolished = true then
    if d.timer - dt ≤ 0 then { d with demolished := false, timer := 0 }
    else { d with timer := d.timer - dt }
  else d

/-- Modelled from the spec: a three component vector of reals (section 3
Data Model; engine code absent from the snapshot). -/
@[ext] structure V3 where
  x : ℝ
  y : ℝ
  z : ℝ

/-- The zero vector. -/
noncomputable def V3.zero : V3 := ⟨0, 0, 0⟩

/-- Squared Euclidean norm of a vector. -/
noncomputable def normSq (v : V3) : ℝ := v.x^2 + v.y^2 + v.z^2

/-- Euclidean norm of a vector, the speed when the vector is a velocity. -/
noncomputable def speed (v : V3) : ℝ := Real.sqrt (normSq v)

/-- Modelled from the spec: the boundary geometry parameters shared by the
car and the ball resolution paths, field extents, corner radius, the
entity half extent used against walls, an optional goal mouth half width
(present for the ball, absent for cars) and the wall restitution (zero for
cars, reflection factor for the ball). Engine code absent from the
snapshot. -/
structure BCfg where
  FW : ℝ
  FL : ℝ
  cR : ℝ
  hw : ℝ
  mouth : Option ℝ
  e : ℝ

/-- The x coordinate of the corner zone boundary: beyond it, a point is in
a corner zone on the x axis. -/
noncomputable def cornerX (c : BCfg) : ℝ := c.FW/2 - c.cR

/-- The z coordinate of the corner zone boundary. -/
noncomputable def cornerZ (c : BCfg) : ℝ := c.FL/2 - c.cR

/-- The x coordinate of the flat wall contact plane for the entity. -/
noncomputable def wallLimX (c : BCfg) : ℝ := c.FW/2 - c.hw

/-- The z coordinate of the flat wall contact plane for the entity. -/
noncomputable def wallLimZ (c : BCfg) : ℝ := c.FL/2 - c.hw

/-- Corner zone test on the z axis, gating the x facing flat walls,
following the ball physics pattern quoted in issues.md. -/
def inZoneZ (c : BCfg) (zc : ℝ) : Prop := zc < -cornerZ c ∨ cornerZ c < zc

/-- Corner zone test on the x axis, gating the z facing flat walls. -/
def inZoneX (c : BCfg) (xc : ℝ) : Prop := xc < -cornerX c ∨ cornerX c < xc

/-- The circular sector of the corner with positive x and positive z. -/
def inSectorPP (c : BCfg) (p : V3) : Prop := cornerX c < p.x ∧ cornerZ c < p.z

/-- The circular sector of the corner with positive x and negative z. -/
def inSectorPM (c : BCfg) (p : V3) : Prop := cornerX c < p.x ∧ p.z < -cornerZ c

/-- The circular sector of the corner with negative x and positive z. -/
def inSectorMP (c : BCfg) (p : V3) : Prop := p.x < -cornerX c ∧ cornerZ c < p.z

/-- The circular sector of the corner with negative x and negative z. -/
def inSectorMM (c : BCfg) (p : V3) : Prop := p.x < -cornerX c ∧ p.z < -cornerZ c

/-- Lateral goal mouth test: within the mouth half width of the centerline
the end wall is absent. Cars carry no mouth, so the test is false for
them. -/
def inMouth (c : BCfg) (xc : ℝ) : Prop :=
  match c.mouth with
  | some m => |xc| < m
  | none => False

/-- The result of one corner arc resolution attempt. -/
structure ArcOut where
  pos : V3
  vel : V3
  fired : Bool

/-- Modelled from the spec: corner arc resolution at the arc center
(ax, az). When the planar distance from the center exceeds the corner
radius minus the entity half extent, the point is pushed radially inward
onto the arc boundary and the outward radial velocity component is
reflected (restitution e, with e zero this zeroes it). Engine code absent
from the snapshot. -/
noncomputable def arcFix (c : BCfg) (ax az : ℝ) (p v : V3) : ArcOut :=
  let dx := p.x - ax
  let dz := p.z - az
  let dsq := dx^2 + dz^2
  let R := c.cR - c.hw
  if R^2 < dsq then
    let dist := Real.sqrt dsq
    let nx := dx / dist
    let nz := dz / dist
    let vr := v.x * nx + v.z * nz
    { pos := ⟨ax + R * nx, p.y, az + R * nz⟩
      vel := if 0 < vr then ⟨v.x - (1 + c.e) * vr * nx, v.y, v.z - (1 + c.e) * vr * nz⟩
             else v
      fired := true }
  else { pos := p, vel := v, fired := false }

/-- Modelled from the spec: the corner arc dispatch, classifying the point
into at most one of the four corner sectors and resolving against that
corner arc (engine code absent from the snapshot). -/
noncomputable def arcStage (c : BCfg) (p v : V3) : ArcOut :=
  if inSectorPP c p then arcFix c (cornerX c) (cornerZ c) p v
  else if inSectorPM c p then arcFix c (cornerX c) (-cornerZ c) p v
  else if inSectorMP c p then arcFix c (-cornerX c) (cornerZ c) p v
  else if inSectorMM c p then arcFix c (-cornerX c) (-cornerZ c) p v
  else { pos := p, vel := v, fired := false }

/-- The result of the flat wall pass. -/
structure FOut where
  pos : V3
  vel : V3
  fx : Bool
  fz : Bool

/-- Modelled from the spec and the fix quoted in issues.md: the four flat
wall clamp blocks, each guarded by the corner zone flag of the other axis
so that no flat wall correction runs on a point that belongs to a corner
arc; the end wall blocks additionally skip entities whose lateral offset
is inside the goal mouth. The flags are computed once from the position
the pass receives. Engine code absent from the snapshot. -/
noncomputable def flatPass (c : BCfg) (p v : V3) : FOut :=
  let hitXp := wallLimX c < p.x ∧ ¬ inZoneZ c p.z
  let hitXm := p.x < -wallLimX c ∧ ¬ inZoneZ c p.z
  let x2 := if hitXp then wallLimX c else if hitXm then -wallLimX c else p.x
  let vx2 := if hitXp ∨ hitXm then -c.e * v.x else v.x
  let hitZp := wallLimZ c < p.z ∧ ¬ inZoneX c p.x ∧ ¬ inMouth c x2
  let hitZm := p.z < -wallLimZ c ∧ ¬ inZoneX c p.x ∧ ¬ inMouth c x2
  let z2 := if hitZp then wallLimZ c else if hitZm then -wallLimZ c else p.z
  let vz2 := if hitZp ∨ hitZm then -c.e * v.z else v.z
  { pos := ⟨x2, p.y, z2⟩
    vel := ⟨vx2, v.y, vz2⟩
    fx := if hitXp ∨ hitXm then true else false
    fz := if hitZp ∨ hitZm then true else false }

/-- The result of one boundary resolution frame: corrected position and
velocity, an optional goal event, and which resolutions fired. -/
structure BOut where
  pos : V3
  vel : V3
  scored : Option Side
  arc : Bool
  fx : Bool
  fz : Bool

/-- Modelled from the spec: one frame of arena boundary resolution. A ball
past an end plane inside the goal mouth raises the goal event for the
opposing side (the positive z end belongs to the player, so crossing it
scores for the ai side); otherwise the corner arc dispatch runs first and
the guarded flat wall pass second (engine code absent from the
snapshot). -/
noncomputable def resolveBounds (c : BCfg) (p v : V3) : BOut :=
  if inMouth c p.x ∧ c.FL/2 < p.z then
    { pos := p, vel := v, scored := some .ai, arc := false, fx := false, fz := false }
  else if inMouth c p.x ∧ p.z < -(c.FL/2) then
    { pos := p, vel := v, scored := some .player, arc := false, fx := false, fz := false }
  else
    let a := arcStage c p v
    let f := flatPass c a.pos a.vel
    { pos := f.pos, vel := f.vel, scored := none, arc := a.fired, fx := f.fx, fz := f.fz }

/-- A well formed boundary configuration: positive half extent smaller than
the corner radius, corners fitting inside the field, restitution in the
unit interval, and a goal mouth contained in the flat part of the end
wall. -/
def BCfg.Valid (c : BCfg) : Prop :=
  0 < c.hw ∧ c.hw < c.cR ∧ 2 * c.cR < c.FW ∧ 2 * c.cR < c.FL ∧
  0 ≤ c.e ∧ c.e ≤ 1 ∧ ∀ m, c.mouth = some m → 0 < m ∧ m + c.cR ≤ c.FW/2

/-- Modelled from the spec: the full engine configuration, arena bounds,
entity dimensions and the physics constants; constants the spec leaves
open (restitution, impulse blend weight) are carried as fields (engine
code absent from the snapshot). -/
structure Cfg where
  FW : ℝ
  FL : ℝ
  cR : ℝ
  goalW : ℝ
  hw : ℝ
  BR : ℝ
  CW : ℝ
  CL : ℝ
  cap : ℝ
  grav : ℝ
  restG : ℝ
  restW : ℝ
  minImp : ℝ
  hitK : ℝ
  blendW : ℝ

/-- The boundary view used for cars: no goal mouth, velocity zeroed on
contact. -/
noncomputable def carB (cfg : Cfg) : BCfg :=
  { FW := cfg.FW, FL := cfg.FL, cR := cfg.cR, hw := cfg.hw, mouth := none, e := 0 }

/-- The boundary view used by the ball: ball active radius as half extent,
goal mouth open, reflective walls. -/
noncomputable def ballB (cfg : Cfg) : BCfg :=
  { FW := cfg.FW, FL := cfg.FL, cR := cfg.cR, hw := cfg.BR,
    mouth := some (cfg.goalW/2), e := cfg.restW }

/-- A well formed engine configuration. -/
def Cfg.Valid (cfg : Cfg) : Prop :=
  0 < cfg.hw ∧ cfg.hw < cfg.cR ∧ 2 * cfg.cR < cfg.FW ∧ 2 * cfg.cR < cfg.FL ∧
  0 < cfg.BR ∧ cfg.BR < cfg.cR ∧ 0 < cfg.goalW ∧ cfg.goalW/2 + cfg.cR ≤ cfg.FW/2 ∧
  0 ≤ cfg.cap ∧ 0 ≤ cfg.restG ∧ cfg.restG ≤ 1 ∧ 0 ≤ cfg.restW ∧ cfg.restW ≤ 1 ∧
  0 < cfg.minImp ∧ 0 ≤ cfg.hitK ∧ 0 ≤ cfg.CW ∧ 0 ≤ cfg.CL ∧ 0 ≤ cfg.blendW

/-- Modelled from the spec: clampCar runs the car boundary resolution and
returns the corrected position and velocity (engine code absent from the
snapshot). -/
noncomputable def clampCar (cfg : Cfg) (p v : V3) : V3 × V3 :=
  let o := resolveBounds (carB cfg) p v
  (o.pos, o.vel)

/-- Modelled from the spec: clamp the total speed to a fixed maximum by
uniform rescaling (engine code absent from the snapshot). -/
noncomputable def clampSpeed (cap : ℝ) (v : V3) : V3 :=
  if speed v ≤ cap then v
  else ⟨cap / speed v * v.x, cap / speed v * v.y, cap / speed v * v.z⟩

/-- The result of one ball physics step. -/
structure BallOut where
  pos : V3
  vel : V3
  scored : Option Side

/-- Modelled from the spec: one ball physics frame. During countdown the
ball is frozen and its velocity forced to zero regardless of any external
mutation; otherwise gravity is applied, the position integrated, the
ground bounce resolved with restitution, the total speed clamped, and the
arena boundary resolved with the goal mouth exception (engine code absent
from the snapshot). -/
noncomputable def updateBall (cfg : Cfg) (phase : Phase) (dt : ℝ) (p v : V3) : BallOut :=
  if phase = .countdown then { pos := p, vel := V3.zero, scored := none }
  else
    let v1 : V3 := ⟨v.x, v.y - cfg.grav * dt, v.z⟩
    let p1 : V3 := ⟨p.x + v1.x * dt, p.y + v1.y * dt, p.z + v1.z * dt⟩
    let p2 : V3 := if p1.y < cfg.BR then ⟨p1.x, cfg.BR, p1.z⟩ else p1
    let v2 : V3 := if p1.y < cfg.BR ∧ v1.y < 0 then ⟨v1.x, -cfg.restG * v1.y, v1.z⟩ else v1
    let v3 := clampSpeed cfg.cap v2
    let o := resolveBounds (ballB cfg) p2 v3
    { pos := o.pos, vel := o.vel, scored := o.scored }

/-- Modelled from the spec: the minimum separation distance, the ball
active radius plus a fraction of the larger car footprint dimension
(engine code absent from the snapshot; the fraction 0.55 and the shape of
the sum follow the UAT suite expression). -/
noncomputable def minDist (cfg : Cfg) : ℝ := cfg.BR + 11/20 * max cfg.CW cfg.CL

/-- Modelled from the spec: the degenerate same point guard distance of the
collision resolver. -/
noncomputable def COLLIDE_EPS : ℝ := 1/100

/-- Normalize a vector, mapping the zero vector to itself. -/
noncomputable def safeNorm (v : V3) : V3 :=
  if speed v = 0 then V3.zero
  else ⟨v.x / speed v, v.y / speed v, v.z / speed v⟩

/-- The result of one collision resolution call. -/
structure HitOut where
  hit : Bool
  ballPos : V3
  ballVel : V3

/-- Euclidean distance between two points. -/
noncomputable def dist3 (a b : V3) : ℝ :=
  Real.sqrt ((b.x - a.x)^2 + (b.y - a.y)^2 + (b.z - a.z)^2)

/-- Modelled from the spec: the car against ball collision resolver. If the
center distance exceeds the minimum separation distance or falls under the
degenerate guard there is no effect; otherwise an impulse biased along the
car heading with an enforced minimum floor is applied to the ball velocity
and the ball is separated along the impact normal to the minimum
separation distance (engine code absent from the snapshot). -/
noncomputable def checkCarBall (cfg : Cfg) (cP cV : V3) (carSpeed : ℝ) (bP bV : V3) : HitOut :=
  let d : V3 := ⟨bP.x - cP.x, bP.y - cP.y, bP.z - cP.z⟩
  let dist := speed d
  if minDist cfg < dist ∨ dist < COLLIDE_EPS then
    { hit := false, ballPos := bP, ballVel := bV }
  else
    let n : V3 := ⟨d.x / dist, d.y / dist, d.z / dist⟩
    let cdir := safeNorm cV
    let dir := safeNorm ⟨n.x + cfg.blendW * cdir.x, n.y + cfg.blendW * cdir.y,
                         n.z + cfg.blendW * cdir.z⟩
    let imp := max cfg.minImp (cfg.hitK * carSpeed)
    { hit := true
      ballPos := ⟨cP.x + minDist cfg * n.x, cP.y + minDist cfg * n.y, cP.z + minDist cfg * n.z⟩
      ballVel := ⟨bV.x + imp * dir.x, bV.y + imp * dir.y, bV.z + imp * dir.z⟩ }

/-- A concrete boundary configuration used by the witnesses. -/
noncomputable def carBounds0 : BCfg :=
  { FW := 40, FL := 60, cR := 8, hw := 1, mouth := none, e := 0 }

/-- A concrete out of bounds corner position used by the witnesses. -/
noncomputable def posW : V3 := ⟨100, 0, 100⟩

/-- A concrete velocity used by the witnesses. -/
noncomputable def velW : V3 := ⟨5, 0, 5⟩

/-- A concrete ball position one unit from the origin used by the
witnesses. -/
noncomputable def ballW : V3 := ⟨1, 0, 0⟩

/-- A concrete injected velocity used by the witnesses. -/
noncomputable def injW : V3 := ⟨100, 100, 100⟩

/-- A concrete playing match state used by the witnesses. -/
def matchS0 : MatchState :=
  { phase := .playing, scoreO := 0, scoreB := 0, gameTime := 300,
    duration := some 300, overtime := false }

/-- A concrete tied match state at the clock limit used by the witnesses. -/
def matchS1 : MatchState :=
  { phase := .playing, scoreO := 2, scoreB := 2, gameTime := 0,
    duration := some 300, overtime := false }

/-- A concrete active small pad used by the witnesses. -/
def pad0 : Pad :=
  { padX := 0, padZ := 0, big := false, active := true, respawnT := 0 }

/-- A concrete alive demolition state used by the witnesses. -/
def demo0 : DemoState :=
  { demolished := false, timer := 0, velX := 5, velY := 5, velZ := 5 }

/-- A concrete engine configuration used by the witnesses. -/
noncomputable def cfg0 : Cfg :=
  { FW := 40, FL := 60, cR := 8, goalW := 14, hw := 1, BR := 8/5, CW := 4, CL := 6,
    cap := 80, grav := 30, restG := 4/5, restW := 4/5, minImp := 8, hitK := 3/2,
    blendW := 1/2 }

/-- A frame of tickDemo leaves an alive car unchanged. -/
theorem tickDemo_alive (dt : Rat) (d : DemoState) (h : d.demolished = false) :
    tickDemo dt d = d := by
  simp [tickDemo, h]

/-- Iterating tickDemo leaves an alive car unchanged. -/
theorem tickDemo_alive_iter (dt : Rat) (n : Nat) (d : DemoState)
    (h : d.demolished = false) : (tickDemo dt)^[n] d = d := by
  induction n with
  | zero => rfl
  | succ k ih => rw [Function.iterate_succ_apply, tickDemo_alive dt d h, ih]

/-- After n frames of tickDemo a demolished car with a positive timer is
still demolished exactly when the timer has not yet counted down to zero
or below. -/
theorem tickDemo_iter_demolished (dt : Rat) (hdt : 0 < dt) :
    ∀ (n : Nat) (d : DemoState), d.demolished = true → 0 < d.timer →
      (((tickDemo dt)^[n] d).demolished = true ↔ (n : Rat) * dt < d.timer) := by
  intro n
  induction n with
  | zero =>
    intro d hd hpos
    simpa [hd] using hpos
  | succ k ih =>
    intro d hd hpos
    rw [Function.iterate_succ_apply]
    by_cases hle : d.timer - dt ≤ 0
    · have h1 : tickDemo dt d = { d with demolished := false, timer := 0 } := by
        simp [tickDemo, hd, hle]
      have h2 : ¬ ((k + 1 : Nat) : Rat) * dt < d.timer := by
        push_cast
        rw [not_lt]
        have hk : (0 : Rat) ≤ (k : Rat) * dt :=
          mul_nonneg (Nat.cast_nonneg k) hdt.le
        nlinarith [hk, hle]
      rw [h1, tickDemo_alive_iter dt k _ rfl]
      simp only [Bool.false_eq_true, false_iff]
      exact h2
    · have h1 : tickDemo dt d = { d with timer := d.timer - dt } := by
        simp [tickDemo, hd, hle]
      have hpos2 : 0 < d.timer - dt := lt_of_not_le (fun h => hle (by linarith))
      rw [h1, ih { d with timer := d.timer - dt } (by simpa using hd) hpos2]
      constructor
      · intro h
        push_cast
        push_cast at h
        linarith
      · intro h
        push_cast
        push_cast at h
        linarith

/-- The corner zone boundary sits strictly left of the wall contact plane
on the x axis. -/
theorem cornerX_lt_wallLimX (c : BCfg) (hv : c.Valid) : cornerX c < wallLimX c := by
  obtain ⟨h1, h2, h3, h4, h5, h6, h7⟩ := hv
  unfold cornerX wallLimX
  linarith

/-- The corner zone boundary sits strictly left of the wall contact plane
on the z axis. -/
theorem cornerZ_lt_wallLimZ (c : BCfg) (hv : c.Valid) : cornerZ c < wallLimZ c := by
  obtain ⟨h1, h2, h3, h4, h5, h6, h7⟩ := hv
  unfold cornerZ wallLimZ
  linarith

/-- The corner zone boundary on the x axis is positive. -/
theorem cornerX_pos (c : BCfg) (hv : c.Valid) : 0 < cornerX c := by
  obtain ⟨h1, h2, h3, h4, h5, h6, h7⟩ := hv
  unfold cornerX
  linarith

/-- The corner zone boundary on the z axis is positive. -/
theorem cornerZ_pos (c : BCfg) (hv : c.Valid) : 0 < cornerZ c := by
  obtain ⟨h1, h2, h3, h4, h5, h6, h7⟩ := hv
  unfold cornerZ
  linarith

/-- The arc radius available to the entity is positive. -/
theorem arcR_pos (c : BCfg) (hv : c.Valid) : 0 < c.cR - c.hw := by
  obtain ⟨h1, h2, h3, h4, h5, h6, h7⟩ := hv
  linarith

/-- A lateral offset inside the goal mouth lies strictly inside the corner
zone boundary of the x axis. -/
theorem inMouth_lt (c : BCfg) (hv : c.Valid) (xc : ℝ) (h : inMouth c xc) :
    |xc| < cornerX c := by
  obtain ⟨h1, h2, h3, h4, h5, h6, h7⟩ := hv
  rcases hmo : c.mouth with _ | m
  · simp [inMouth, hmo] at h
  · simp only [inMouth, hmo] at h
    obtain ⟨hm0, hm1⟩ := h7 m hmo
    unfold cornerX
    linarith

/-- Inside the arc boundary the corner arc resolution does nothing. -/
theorem arcFix_inside (c : BCfg) (ax az : ℝ) (p v : V3)
    (h : (p.x - ax)^2 + (p.z - az)^2 ≤ (c.cR - c.hw)^2) :
    arcFix c ax az p v = ⟨p, v, false⟩ := by
  simp only [arcFix]
  rw [if_neg (not_lt.mpr h)]

/-- Beyond the arc boundary the corner arc resolution fires, keeps the
height, places the point exactly on the arc, and scales the planar offset
from the arc center by a positive factor. -/
theorem arcFix_fired (c : BCfg) (hR : 0 < c.cR - c.hw) (ax az : ℝ) (p v : V3)
    (h : (c.cR - c.hw)^2 < (p.x - ax)^2 + (p.z - az)^2) :
    (arcFix c ax az p v).fired = true ∧
    (arcFix c ax az p v).pos.y = p.y ∧
    ((arcFix c ax az p v).pos.x - ax)^2 + ((arcFix c ax az p v).pos.z - az)^2
      = (c.cR - c.hw)^2 ∧
    ∃ t : ℝ, 0 < t ∧ (arcFix c ax az p v).pos.x - ax = t * (p.x - ax) ∧
      (arcFix c ax az p v).pos.z - az = t * (p.z - az) := by
  have hdsq : 0 < (p.x - ax)^2 + (p.z - az)^2 := lt_trans (by positivity) h
  have hspos : 0 < Real.sqrt ((p.x - ax)^2 + (p.z - az)^2) := Real.sqrt_pos.mpr hdsq
  have hssq : (Real.sqrt ((p.x - ax)^2 + (p.z - az)^2))^2
      = (p.x - ax)^2 + (p.z - az)^2 := Real.sq_sqrt hdsq.le
  have efired : (arcFix c ax az p v).fired = true := by
    simp only [arcFix]
    rw [if_pos h]
  have ey : (arcFix c ax az p v).pos.y = p.y := by
    simp only [arcFix]
    rw [if_pos h]
  have ex : (arcFix c ax az p v).pos.x
      = ax + (c.cR - c.hw) * ((p.x - ax) / Real.sqrt ((p.x - ax)^2 + (p.z - az)^2)) := by
    simp only [arcFix]
    rw [if_pos h]
  have ez : (arcFix c ax az p v).pos.z
      = az + (c.cR - c.hw) * ((p.z - az) / Real.sqrt ((p.x - ax)^2 + (p.z - az)^2)) := by
    simp only [arcFix]
    rw [if_pos h]
  refine ⟨efired, ey, ?_, ?_⟩
  · rw [ex, ez]
    have h1 : (ax + (c.cR - c.hw) * ((p.x - ax) / Real.sqrt ((p.x - ax)^2 + (p.z - az)^2)) - ax)^2
        + (az + (c.cR - c.hw) * ((p.z - az) / Real.sqrt ((p.x - ax)^2 + (p.z - az)^2)) - az)^2
        = (c.cR - c.hw)^2 * ((p.x - ax)^2 + (p.z - az)^2)
          / (Real.sqrt ((p.x - ax)^2 + (p.z - az)^2))^2 := by
      ring
    rw [h1, hssq, mul_div_assoc, div_self hdsq.ne', mul_one]
  · refine ⟨(c.cR - c.hw) / Real.sqrt ((p.x - ax)^2 + (p.z - az)^2),
      div_pos hR hspos, ?_, ?_⟩
    · rw [ex]
      ring
    · rw [ez]
      ring

/-- The corner dispatch when the point sits in the sector with positive x
and positive z. -/
theorem arcStage_pp (c : BCfg) (p v : V3) (h : inSectorPP c p) :
    arcStage c p v = arcFix c (cornerX c) (cornerZ c) p v := by
  simp only [arcStage]
  rw [if_pos h]

/-- The corner dispatch when the point sits in the sector with positive x
and negative z. -/
theorem arcStage_pm (c : BCfg) (hv : c.Valid) (p v : V3) (h : inSectorPM c p) :
    arcStage c p v = arcFix c (cornerX c) (-cornerZ c) p v := by
  have hcz := cornerZ_pos c hv
  have hnpp : ¬ inSectorPP c p := fun hpp => by
    have := h.2
    have := hpp.2
    linarith
  simp only [arcStage]
  rw [if_neg hnpp, if_pos h]

/-- The corner dispatch when the point sits in the sector with negative x
and positive z. -/
theorem arcStage_mp (c : BCfg) (hv : c.Valid) (p v : V3) (h : inSectorMP c p) :
    arcStage c p v = arcFix c (-cornerX c) (cornerZ c) p v := by
  have hcx := cornerX_pos c hv
  have hnpp : ¬ inSectorPP c p := fun hpp => by
    have := h.1
    have := hpp.1
    linarith
  have hnpm : ¬ inSectorPM c p := fun hpm => by
    have := h.1
    have := hpm.1
    linarith
  simp only [arcStage]
  rw [if_neg hnpp, if_neg hnpm, if_pos h]

/-- The corner dispatch when the point sits in the sector with negative x
and negative z. -/
theorem arcStage_mm (c : BCfg) (hv : c.Valid) (p v : V3) (h : inSectorMM c p) :
    arcStage c p v = arcFix c (-cornerX c) (-cornerZ c) p v := by
  have hcx := cornerX_pos c hv
  have hcz := cornerZ_pos c hv
  have hnpp : ¬ inSectorPP c p := fun hpp => by
    have := h.1
    have := hpp.1
    linarith
  have hnpm : ¬ inSectorPM c p := fun hpm => by
    have := h.1
    have := hpm.1
    linarith
  have hnmp : ¬ inSectorMP c p := fun hmp => by
    have := h.2
    have := hmp.2
    linarith
  simp only [arcStage]
  rw [if_neg hnpp, if_neg hnpm, if_neg hnmp, if_pos h]

/-- The corner dispatch does nothing outside all four sectors. -/
theorem arcStage_none (c : BCfg) (p v : V3) (h1 : ¬ inSectorPP c p)
    (h2 : ¬ inSectorPM c p) (h3 : ¬ inSectorMP c p) (h4 : ¬ inSectorMM c p) :
    arcStage c p v = ⟨p, v, false⟩ := by
  simp only [arcStage]
  rw [if_neg h1, if_neg h2, if_neg h3, if_neg h4]

/-- The flat wall pass does nothing to a point carrying both corner zone
flags: every clamp block is guarded off. -/
theorem flatPass_id_of_zones (c : BCfg) (p v : V3) (hz : inZoneZ c p.z)
    (hx : inZoneX c p.x) : flatPass c p v = ⟨p, v, false, false⟩ := by
  simp [flatPass, hz, hx]

/-- The flat wall pass does nothing to a point inside all four wall
planes. -/
theorem flatPass_id_of_inside (c : BCfg) (p v : V3)
    (h1 : p.x ≤ wallLimX c) (h2 : -wallLimX c ≤ p.x)
    (h3 : p.z ≤ wallLimZ c) (h4 : -wallLimZ c ≤ p.z) :
    flatPass c p v = ⟨p, v, false, false⟩ := by
  simp [flatPass, not_lt.mpr h1, not_lt.mpr h2, not_lt.mpr h3, not_lt.mpr h4]

/-- The flat wall pass on a point beyond the positive x wall outside the z
corner zones clamps the x coordinate, reflects the x velocity, and leaves
the z axis untouched. -/
theorem flatPass_hitXp (c : BCfg) (hv : c.Valid) (p v : V3)
    (h1 : wallLimX c < p.x) (h2 : ¬ inZoneZ c p.z) :
    flatPass c p v = ⟨⟨wallLimX c, p.y, p.z⟩, ⟨-c.e * v.x, v.y, v.z⟩, true, false⟩ := by
  have hwx0 : 0 < wallLimX c := lt_trans (cornerX_pos c hv) (cornerX_lt_wallLimX c hv)
  have hxm : ¬ p.x < -wallLimX c := by linarith
  have hiX : inZoneX c p.x := Or.inr (lt_trans (cornerX_lt_wallLimX c hv) h1)
  simp [flatPass, h1, h2, hxm, hiX]

/-- The flat wall pass on a point beyond the negative x wall outside the z
corner zones clamps the x coordinate, reflects the x velocity, and leaves
the z axis untouched. -/
theorem flatPass_hitXm (c : BCfg) (hv : c.Valid) (p v : V3)
    (h1 : p.x < -wallLimX c) (h2 : ¬ inZoneZ c p.z) :
    flatPass c p v = ⟨⟨-wallLimX c, p.y, p.z⟩, ⟨-c.e * v.x, v.y, v.z⟩, true, false⟩ := by
  have hwx0 : 0 < wallLimX c := lt_trans (cornerX_pos c hv) (cornerX_lt_wallLimX c hv)
  have hxp : ¬ wallLimX c < p.x := by linarith
  have hiX : inZoneX c p.x := Or.inl (by
    have := cornerX_lt_wallLimX c hv
    linarith)
  simp [flatPass, h1, h2, hxp, hiX]

/-- The flat wall pass on a point beyond the positive z end wall, outside
the x corner zones and outside the goal mouth, clamps the z coordinate,
reflects the z velocity, and leaves the x axis untouched. -/
theorem flatPass_hitZp (c : BCfg) (hv : c.Valid) (p v : V3)
    (h1 : wallLimZ c < p.z) (h2 : ¬ inZoneX c p.x) (h3 : ¬ inMouth c p.x) :
    flatPass c p v = ⟨⟨p.x, p.y, wallLimZ c⟩, ⟨v.x, v.y, -c.e * v.z⟩, false, true⟩ := by
  have hb : -cornerX c ≤ p.x ∧ p.x ≤ cornerX c := by
    unfold inZoneX at h2
    push_neg at h2
    exact ⟨h2.1, h2.2⟩
  have hxp : ¬ wallLimX c < p.x := by
    have := cornerX_lt_wallLimX c hv
    linarith [hb.2]
  have hxm : ¬ p.x < -wallLimX c := by
    have := cornerX_lt_wallLimX c hv
    linarith [hb.1]
  simp [flatPass, h1, h2, h3, hxp, hxm]

/-- The flat wall pass on a point beyond the negative z end wall, outside
the x corner zones and outside the goal mouth, clamps the z coordinate,
reflects the z velocity, and leaves the x axis untouched. -/
theorem flatPass_hitZm (c : BCfg) (hv : c.Valid) (p v : V3)
    (h1 : p.z < -wallLimZ c) (h2 : ¬ inZoneX c p.x) (h3 : ¬ inMouth c p.x) :
    flatPass c p v = ⟨⟨p.x, p.y, -wallLimZ c⟩, ⟨v.x, v.y, -c.e * v.z⟩, false, true⟩ := by
  have hwz0 : 0 < wallLimZ c := lt_trans (cornerZ_pos c hv) (cornerZ_lt_wallLimZ c hv)
  have hb : -cornerX c ≤ p.x ∧ p.x ≤ cornerX c := by
    unfold inZoneX at h2
    push_neg at h2
    exact ⟨h2.1, h2.2⟩
  have hxp : ¬ wallLimX c < p.x := by
    have := cornerX_lt_wallLimX c hv
    linarith [hb.2]
  have hxm : ¬ p.x < -wallLimX c := by
    have := cornerX_lt_wallLimX c hv
    linarith [hb.1]
  have hzp : ¬ wallLimZ c < p.z := by linarith
  simp [flatPass, h1, h2, h3, hxp, hxm, hzp]

/-- The flat wall pass does nothing when none of the four guarded clamp
conditions holds. -/
theorem flatPass_id_of_none (c : BCfg) (p v : V3)
    (h1 : ¬ (wallLimX c < p.x ∧ ¬ inZoneZ c p.z))
    (h2 : ¬ (p.x < -wallLimX c ∧ ¬ inZoneZ c p.z))
    (h3 : ¬ (wallLimZ c < p.z ∧ ¬ inZoneX c p.x ∧ ¬ inMouth c p.x))
    (h4 : ¬ (p.z < -wallLimZ c ∧ ¬ inZoneX c p.x ∧ ¬ inMouth c p.x)) :
    flatPass c p v = ⟨p, v, false, false⟩ := by
  have ho1 : ¬ ((wallLimX c < p.x ∧ ¬ inZoneZ c p.z)
      ∨ (p.x < -wallLimX c ∧ ¬ inZoneZ c p.z)) := by tauto
  have ho2 : ¬ ((wallLimZ c < p.z ∧ ¬ inZoneX c p.x ∧ ¬ inMouth c p.x)
      ∨ (p.z < -wallLimZ c ∧ ¬ inZoneX c p.x ∧ ¬ inMouth c p.x)) := by tauto
  simp only [flatPass, if_neg h1, if_neg h2, if_neg h3, if_neg h4, if_neg ho1, if_neg ho2]

/-- A coordinate strictly beyond the corner zone boundary on the side read
off a unit sign lies in the x corner zone. -/
theorem sector_zoneX (c : BCfg) (sx xq : ℝ) (hsx : sx = 1 ∨ sx = -1)
    (h : cornerX c < sx * xq) : inZoneX c xq := by
  rcases hsx with rfl | rfl
  · exact Or.inr (by linarith)
  · exact Or.inl (by linarith)

/-- A coordinate strictly beyond the corner zone boundary on the side read
off a unit sign lies in the z corner zone. -/
theorem sector_zoneZ (c : BCfg) (sz zq : ℝ) (hsz : sz = 1 ∨ sz = -1)
    (h : cornerZ c < sz * zq) : inZoneZ c zq := by
  rcases hsz with rfl | rfl
  · exact Or.inr (by linarith)
  · exact Or.inl (by linarith)

/-- A coordinate strictly beyond the corner zone boundary cannot lie inside
the goal mouth. -/
theorem sector_notMouth (c : BCfg) (hv : c.Valid) (sx xq : ℝ)
    (hsx : sx = 1 ∨ sx = -1) (h : cornerX c < sx * xq) : ¬ inMouth c xq := by
  intro hm
  have h1 := inMouth_lt c hv xq hm
  rcases hsx with rfl | rfl
  · have := le_abs_self xq
    linarith
  · have h2 := le_abs_self (-xq)
    rw [abs_neg] at h2
    linarith

/-- Scaling the offset from the arc center by a positive factor keeps the
point strictly beyond the corner zone boundary on the same signed side. -/
theorem sector_scaled (cX sx xp xq t : ℝ) (hsx : sx = 1 ∨ sx = -1)
    (heq : xq - sx * cX = t * (xp - sx * cX)) (ht : 0 < t)
    (hp : cX < sx * xp) : cX < sx * xq := by
  rcases hsx with rfl | rfl
  · have h2 : 0 < t * (xp - 1 * cX) := mul_pos ht (by linarith)
    linarith
  · have h2 : t * (xp - -1 * cX) < 0 := mul_neg_of_pos_of_neg ht (by linarith)
    linarith

/-- The corner dispatch at a point strictly inside the sector read off a
pair of unit signs resolves against that corner arc. -/
theorem arcStage_s (c : BCfg) (hv : c.Valid) (p v : V3) (sx sz : ℝ)
    (hsx : sx = 1 ∨ sx = -1) (hsz : sz = 1 ∨ sz = -1)
    (hx : cornerX c < sx * p.x) (hz : cornerZ c < sz * p.z) :
    arcStage c p v = arcFix c (sx * cornerX c) (sz * cornerZ c) p v := by
  rcases hsx with rfl | rfl <;> rcases hsz with rfl | rfl
  · simp only [one_mul] at hx hz ⊢
    exact arcStage_pp c p v ⟨hx, hz⟩
  · simp only [one_mul, neg_one_mul] at hx hz ⊢
    exact arcStage_pm c hv p v ⟨hx, by linarith⟩
  · simp only [one_mul, neg_one_mul] at hx hz ⊢
    exact arcStage_mp c hv p v ⟨by linarith, hz⟩
  · simp only [neg_one_mul] at hx hz ⊢
    exact arcStage_mm c hv p v ⟨by linarith, by linarith⟩

/-- The solid path of the boundary resolution, taken whenever the point is
not passing through the goal mouth. -/
theorem resolveBounds_solid (c : BCfg) (p v : V3)
    (h1 : ¬ (inMouth c p.x ∧ c.FL/2 < p.z))
    (h2 : ¬ (inMouth c p.x ∧ p.z < -(c.FL/2))) :
    resolveBounds c p v =
      { pos := (flatPass c (arcStage c p v).pos (arcStage c p v).vel).pos
        vel := (flatPass c (arcStage c p v).pos (arcStage c p v).vel).vel
        scored := none
        arc := (arcStage c p v).fired
        fx := (flatPass c (arcStage c p v).pos (arcStage c p v).vel).fx
        fz := (flatPass c (arcStage c p v).pos (arcStage c p v).vel).fz } := by
  simp only [resolveBounds]
  rw [if_neg h1, if_neg h2]

/-- C1: for every position and velocity, over any valid boundary
configuration (the car view and the ball view alike), corner arc
resolution and flat wall resolution are mutually exclusive per axis pair
within one frame: when the arc fires neither flat wall clamp fires; a
point in a corner sector beyond the arc gets exactly the arc resolution
and a point beyond a flat wall outside the corner zone gets exactly the
flat wall resolution; and one frame of boundary resolution reaches a fixed
point, so repeated resolution of a stationary out of bounds point is
constant from the first frame on and the position delta between successive
frames is zero, with no oscillation. -/
theorem C1_boundary_exclusive_convergent (c : BCfg) (hv : c.Valid) (p v : V3) :
    ((resolveBounds c p v).arc = true →
      (resolveBounds c p v).fx = false ∧ (resolveBounds c p v).fz = false) ∧
    (resolveBounds c (resolveBounds c p v).pos (resolveBounds c p v).vel).pos
      = (resolveBounds c p v).pos ∧
    (resolveBounds c (resolveBounds c p v).pos (resolveBounds c p v).vel).vel
      = (resolveBounds c p v).vel ∧
    (inSectorPP c p → (c.cR - c.hw)^2 < (p.x - cornerX c)^2 + (p.z - cornerZ c)^2 →
      (resolveBounds c p v).arc = true) ∧
    (wallLimX c < p.x → ¬ inZoneZ c p.z →
      (resolveBounds c p v).fx = true ∧ (resolveBounds c p v).arc = false) := by
  have hvv := hv
  obtain ⟨hhw0, hhwcr, hFWv, hFLv, he0v, he1v, hmov⟩ := hvv
  have hR := arcR_pos c hv
  have hcx := cornerX_pos c hv
  have hcz := cornerZ_pos c hv
  have hwx := cornerX_lt_wallLimX c hv
  have hwz := cornerZ_lt_wallLimZ c hv
  have hcR0 : 0 < c.cR := lt_trans hhw0 hhwcr
  have hczFL : cornerZ c < c.FL/2 := by
    unfold cornerZ
    linarith
  by_cases hm1 : inMouth c p.x ∧ c.FL/2 < p.z
  · have e1 : resolveBounds c p v = ⟨p, v, some .ai, false, false, false⟩ := by
      simp only [resolveBounds]
      rw [if_pos hm1]
    refine ⟨?_, ?_, ?_, ?_, ?_⟩
    · simp only [e1]
      simp
    · simp only [e1]
    · simp only [e1]
    · intro hpp _
      exfalso
      have h1 := inMouth_lt c hv p.x hm1.1
      have h2 := le_abs_self p.x
      have h3 := hpp.1
      linarith
    · intro _ hz
      exfalso
      unfold inZoneZ at hz
      push_neg at hz
      linarith [hm1.2, hz.2]
  · by_cases hm2 : inMouth c p.x ∧ p.z < -(c.FL/2)
    · have e1 : resolveBounds c p v = ⟨p, v, some .player, false, false, false⟩ := by
        simp only [resolveBounds]
        rw [if_neg hm1, if_pos hm2]
      refine ⟨?_, ?_, ?_, ?_, ?_⟩
      · simp only [e1]
        simp
      · simp only [e1]
      · simp only [e1]
      · intro hpp _
        exfalso
        have h3 := hpp.2
        linarith [hm2.2]
      · intro _ hz
        exfalso
        unfold inZoneZ at hz
        push_neg at hz
        linarith [hm2.2, hz.1]
    · have es := resolveBounds_solid c p v hm1 hm2
      by_cases hsec : ∃ sx sz : ℝ, (sx = 1 ∨ sx = -1) ∧ (sz = 1 ∨ sz = -1) ∧
          cornerX c < sx * p.x ∧ cornerZ c < sz * p.z
      · obtain ⟨sx, sz, hsx, hsz, hpx, hpz⟩ := hsec
        rw [arcStage_s c hv p v sx sz hsx hsz hpx hpz] at es
        by_cases harc : (c.cR - c.hw)^2
            < (p.x - sx * cornerX c)^2 + (p.z - sz * cornerZ c)^2
        · obtain ⟨hf, hy, hcirc, t, ht, htx, htz⟩ :=
            arcFix_fired c hR (sx * cornerX c) (sz * cornerZ c) p v harc
          set a := arcFix c (sx * cornerX c) (sz * cornerZ c) p v with ha
          have hqx : cornerX c < sx * a.pos.x :=
            sector_scaled (cornerX c) sx p.x a.pos.x t hsx htx ht hpx
          have hqz : cornerZ c < sz * a.pos.z :=
            sector_scaled (cornerZ c) sz p.z a.pos.z t hsz htz ht hpz
          have hiX := sector_zoneX c sx a.pos.x hsx hqx
          have hiZ := sector_zoneZ c sz a.pos.z hsz hqz
          have hnm := sector_notMouth c hv sx a.pos.x hsx hqx
          have efp := flatPass_id_of_zones c a.pos a.vel hiZ hiX
          simp only [efp] at es
          have hm1q : ¬ (inMouth c a.pos.x ∧ c.FL/2 < a.pos.z) := fun hh => hnm hh.1
          have hm2q : ¬ (inMouth c a.pos.x ∧ a.pos.z < -(c.FL/2)) := fun hh => hnm hh.1
          have es2 := resolveBounds_solid c a.pos a.vel hm1q hm2q
          rw [arcStage_s c hv a.pos a.vel sx sz hsx hsz hqx hqz] at es2
          have einside : arcFix c (sx * cornerX c) (sz * cornerZ c) a.pos a.vel
              = ⟨a.pos, a.vel, false⟩ :=
            arcFix_inside c (sx * cornerX c) (sz * cornerZ c) a.pos a.vel
              (le_of_eq hcirc)
          simp only [einside, efp] at es2
          refine ⟨?_, ?_, ?_, ?_, ?_⟩
          · intro _
            simp only [es]
            exact ⟨trivial, trivial⟩
          · simp only [es, es2]
          · simp only [es, es2]
          · intro _ _
            simp only [es]
            exact hf
          · intro _ hz
            exact absurd (sector_zoneZ c sz p.z hsz hpz) hz
        · have einside := arcFix_inside c (sx * cornerX c) (sz * cornerZ c) p v
            (not_lt.mp harc)
          simp only [einside] at es
          have efp := flatPass_id_of_zones c p v (sector_zoneZ c sz p.z hsz hpz)
            (sector_zoneX c sx p.x hsx hpx)
          simp only [efp] at es
          refine ⟨?_, ?_, ?_, ?_, ?_⟩
          · simp only [es]
            simp
          · simp only [es]
          · simp only [es]
          · intro hpp harc2
            exfalso
            rcases hsx with rfl | rfl
            · rcases hsz with rfl | rfl
              · simp only [one_mul] at harc
                exact harc harc2
              · have h3 := hpp.2
                simp only [neg_one_mul] at hpz
                linarith
            · have h3 := hpp.1
              simp only [neg_one_mul] at hpx
              linarith
          · intro _ hz
            exact absurd (sector_zoneZ c sz p.z hsz hpz) hz
      · push_neg at hsec
        have hnPP : ¬ inSectorPP c p := by
          intro h
          have h5 := hsec 1 1 (Or.inl rfl) (Or.inl rfl) (by simpa using h.1)
          have h6 := h.2
          simp only [one_mul] at h5
          linarith
        have hnPM : ¬ inSectorPM c p := by
          intro h
          have h5 := hsec 1 (-1) (Or.inl rfl) (Or.inr rfl) (by simpa using h.1)
          have h6 := h.2
          simp only [neg_one_mul] at h5
          linarith
        have hnMP : ¬ inSectorMP c p := by
          intro h
          have h5 := hsec (-1) 1 (Or.inr rfl) (Or.inl rfl) (by
            simp only [neg_one_mul]
            linarith [h.1])
          have h6 := h.2
          simp only [one_mul] at h5
          linarith
        have hnMM : ¬ inSectorMM c p := by
          intro h
          have h5 := hsec (-1) (-1) (Or.inr rfl) (Or.inr rfl) (by
            simp only [neg_one_mul]
            linarith [h.1])
          have h6 := h.2
          simp only [neg_one_mul] at h5
          linarith
        have ea := arcStage_none c p v hnPP hnPM hnMP hnMM
        simp only [ea] at es
        have hwx0 : 0 < wallLimX c := lt_trans hcx hwx
        have hwz0 : 0 < wallLimZ c := lt_trans hcz hwz
        by_cases hXp : wallLimX c < p.x ∧ ¬ inZoneZ c p.z
        · have efp := flatPass_hitXp c hv p v hXp.1 hXp.2
          simp only [efp] at es
          have hbz : -cornerZ c ≤ p.z ∧ p.z ≤ cornerZ c := by
            have h2 := hXp.2
            unfold inZoneZ at h2
            push_neg at h2
            exact ⟨h2.1, h2.2⟩
          have hnmq : ¬ inMouth c (wallLimX c) := by
            intro hm
            have h7 := inMouth_lt c hv (wallLimX c) hm
            rw [abs_of_pos hwx0] at h7
            linarith
          have hm1q : ¬ (inMouth c (⟨wallLimX c, p.y, p.z⟩ : V3).x ∧
              c.FL/2 < (⟨wallLimX c, p.y, p.z⟩ : V3).z) := fun hh => hnmq hh.1
          have hm2q : ¬ (inMouth c (⟨wallLimX c, p.y, p.z⟩ : V3).x ∧
              (⟨wallLimX c, p.y, p.z⟩ : V3).z < -(c.FL/2)) := fun hh => hnmq hh.1
          have es2 := resolveBounds_solid c ⟨wallLimX c, p.y, p.z⟩
            ⟨-c.e * v.x, v.y, v.z⟩ hm1q hm2q
          have hsPP : ¬ inSectorPP c (⟨wallLimX c, p.y, p.z⟩ : V3) :=
            fun h => absurd h.2 (not_lt.mpr hbz.2)
          have hsPM : ¬ inSectorPM c (⟨wallLimX c, p.y, p.z⟩ : V3) :=
            fun h => absurd h.2 (not_lt.mpr hbz.1)
          have hsMP : ¬ inSectorMP c (⟨wallLimX c, p.y, p.z⟩ : V3) :=
            fun h => absurd h.1 (not_lt.mpr (by linarith : -cornerX c ≤ wallLimX c))
          have hsMM : ¬ inSectorMM c (⟨wallLimX c, p.y, p.z⟩ : V3) :=
            fun h => absurd h.1 (not_lt.mpr (by linarith : -cornerX c ≤ wallLimX c))
          have ea2 := arcStage_none c ⟨wallLimX c, p.y, p.z⟩
            ⟨-c.e * v.x, v.y, v.z⟩ hsPP hsPM hsMP hsMM
          simp only [ea2] at es2
          have efp2 := flatPass_id_of_inside c ⟨wallLimX c, p.y, p.z⟩
            ⟨-c.e * v.x, v.y, v.z⟩ (le_refl _)
            (by show -wallLimX c ≤ wallLimX c; linarith)
            (by show p.z ≤ wallLimZ c; linarith [hbz.2])
            (by show -wallLimZ c ≤ p.z; linarith [hbz.1])
          simp only [efp2] at es2
          refine ⟨?_, ?_, ?_, ?_, ?_⟩
          · simp only [es]
            simp
          · simp only [es, es2]
          · simp only [es, es2]
          · intro hpp _
            exact absurd hpp hnPP
          · intro _ _
            simp only [es]
            exact ⟨trivial, trivial⟩
        · by_cases hXm : p.x < -wallLimX c ∧ ¬ inZoneZ c p.z
          · have efp := flatPass_hitXm c hv p v hXm.1 hXm.2
            simp only [efp] at es
            have hbz : -cornerZ c ≤ p.z ∧ p.z ≤ cornerZ c := by
              have h2 := hXm.2
              unfold inZoneZ at h2
              push_neg at h2
              exact ⟨h2.1, h2.2⟩
            have hnmq : ¬ inMouth c (-wallLimX c) := by
              intro hm
              have h7 := inMouth_lt c hv (-wallLimX c) hm
              rw [abs_of_neg (by linarith : -wallLimX c < 0), neg_neg] at h7
              linarith
            have hm1q : ¬ (inMouth c (⟨-wallLimX c, p.y, p.z⟩ : V3).x ∧
                c.FL/2 < (⟨-wallLimX c, p.y, p.z⟩ : V3).z) := fun hh => hnmq hh.1
            have hm2q : ¬ (inMouth c (⟨-wallLimX c, p.y, p.z⟩ : V3).x ∧
                (⟨-wallLimX c, p.y, p.z⟩ : V3).z < -(c.FL/2)) := fun hh => hnmq hh.1
            have es2 := resolveBounds_solid c ⟨-wallLimX c, p.y, p.z⟩
              ⟨-c.e * v.x, v.y, v.z⟩ hm1q hm2q
            have hsPP : ¬ inSectorPP c (⟨-wallLimX c, p.y, p.z⟩ : V3) :=
              fun h => absurd h.2 (not_lt.mpr hbz.2)
            have hsPM : ¬ inSectorPM c (⟨-wallLimX c, p.y, p.z⟩ : V3) :=
              fun h => absurd h.2 (not_lt.mpr hbz.1)
            have hsMP : ¬ inSectorMP c (⟨-wallLimX c, p.y, p.z⟩ : V3) :=
              fun h => absurd h.2 (not_lt.mpr hbz.2)
            have hsMM : ¬ inSectorMM c (⟨-wallLimX c, p.y, p.z⟩ : V3) :=
              fun h => absurd h.2 (not_lt.mpr hbz.1)
            have ea2 := arcStage_none c ⟨-wallLimX c, p.y, p.z⟩
              ⟨-c.e * v.x, v.y, v.z⟩ hsPP hsPM hsMP hsMM
            simp only [ea2] at es2
            have efp2 := flatPass_id_of_inside c ⟨-wallLimX c, p.y, p.z⟩
              ⟨-c.e * v.x, v.y, v.z⟩
              (by show -wallLimX c ≤ wallLimX c; linarith) (le_refl _)
              (by show p.z ≤ wallLimZ c; linarith [hbz.2])
              (by show -wallLimZ c ≤ p.z; linarith [hbz.1])
            simp only [efp2] at es2
            refine ⟨?_, ?_, ?_, ?_, ?_⟩
            · simp only [es]
              simp
            · simp only [es, es2]
            · simp only [es, es2]
            · intro hpp _
              exact absurd hpp hnPP
            · intro hx hz
              exact absurd ⟨hx, hz⟩ hXp
          · by_cases hZp : wallLimZ c < p.z ∧ ¬ inZoneX c p.x ∧ ¬ inMouth c p.x
            · have efp := flatPass_hitZp c hv p v hZp.1 hZp.2.1 hZp.2.2
              simp only [efp] at es
              have hbx : -cornerX c ≤ p.x ∧ p.x ≤ cornerX c := by
                have h2 := hZp.2.1
                unfold inZoneX at h2
                push_neg at h2
                exact ⟨h2.1, h2.2⟩
              have hm1q : ¬ (inMouth c (⟨p.x, p.y, wallLimZ c⟩ : V3).x ∧
                  c.FL/2 < (⟨p.x, p.y, wallLimZ c⟩ : V3).z) := fun hh => hZp.2.2 hh.1
              have hm2q : ¬ (inMouth c (⟨p.x, p.y, wallLimZ c⟩ : V3).x ∧
                  (⟨p.x, p.y, wallLimZ c⟩ : V3).z < -(c.FL/2)) := fun hh => hZp.2.2 hh.1
              have es2 := resolveBounds_solid c ⟨p.x, p.y, wallLimZ c⟩
                ⟨v.x, v.y, -c.e * v.z⟩ hm1q hm2q
              have hsPP : ¬ inSectorPP c (⟨p.x, p.y, wallLimZ c⟩ : V3) :=
                fun h => absurd h.1 (not_lt.mpr hbx.2)
              have hsPM : ¬ inSectorPM c (⟨p.x, p.y, wallLimZ c⟩ : V3) :=
                fun h => absurd h.1 (not_lt.mpr hbx.2)
              have hsMP : ¬ inSectorMP c (⟨p.x, p.y, wallLimZ c⟩ : V3) :=
                fun h => absurd h.1 (not_lt.mpr hbx.1)
              have hsMM : ¬ inSectorMM c (⟨p.x, p.y, wallLimZ c⟩ : V3) :=
                fun h => absurd h.1 (not_lt.mpr hbx.1)
              have ea2 := arcStage_none c ⟨p.x, p.y, wallLimZ c⟩
                ⟨v.x, v.y, -c.e * v.z⟩ hsPP hsPM hsMP hsMM
              simp only [ea2] at es2
              have efp2 := flatPass_id_of_inside c ⟨p.x, p.y, wallLimZ c⟩
                ⟨v.x, v.y, -c.e * v.z⟩
                (by show p.x ≤ wallLimX c; linarith [hbx.2])
                (by show -wallLimX c ≤ p.x; linarith [hbx.1])
                (le_refl _)
                (by show -wallLimZ c ≤ wallLimZ c; linarith)
              simp only [efp2] at es2
              refine ⟨?_, ?_, ?_, ?_, ?_⟩
              · simp only [es]
                simp
              · simp only [es, es2]
              · simp only [es, es2]
              · intro hpp _
                exact absurd hpp hnPP
              · intro hx hz
                exact absurd ⟨hx, hz⟩ hXp
            · by_cases hZm : p.z < -wallLimZ c ∧ ¬ inZoneX c p.x ∧ ¬ inMouth c p.x
              · have efp := flatPass_hitZm c hv p v hZm.1 hZm.2.1 hZm.2.2
                simp only [efp] at es
                have hbx : -cornerX c ≤ p.x ∧ p.x ≤ cornerX c := by
                  have h2 := hZm.2.1
                  unfold inZoneX at h2
                  push_neg at h2
                  exact ⟨h2.1, h2.2⟩
                have hm1q : ¬ (inMouth c (⟨p.x, p.y, -wallLimZ c⟩ : V3).x ∧
                    c.FL/2 < (⟨p.x, p.y, -wallLimZ c⟩ : V3).z) := fun hh => hZm.2.2 hh.1
                have hm2q : ¬ (inMouth c (⟨p.x, p.y, -wallLimZ c⟩ : V3).x ∧
                    (⟨p.x, p.y, -wallLimZ c⟩ : V3).z < -(c.FL/2)) := fun hh => hZm.2.2 hh.1
                have es2 := resolveBounds_solid c ⟨p.x, p.y, -wallLimZ c⟩
                  ⟨v.x, v.y, -c.e * v.z⟩ hm1q hm2q
                have hsPP : ¬ inSectorPP c (⟨p.x, p.y, -wallLimZ c⟩ : V3) :=
                  fun h => absurd h.1 (not_lt.mpr hbx.2)
                have hsPM : ¬ inSectorPM c (⟨p.x, p.y, -wallLimZ c⟩ : V3) :=
                  fun h => absurd h.1 (not_lt.mpr hbx.2)
                have hsMP : ¬ inSectorMP c (⟨p.x, p.y, -wallLimZ c⟩ : V3) :=
                  fun h => absurd h.1 (not_lt.mpr hbx.1)
                have hsMM : ¬ inSectorMM c (⟨p.x, p.y, -wallLimZ c⟩ : V3) :=
                  fun h => absurd h.1 (not_lt.mpr hbx.1)
                have ea2 := arcStage_none c ⟨p.x, p.y, -wallLimZ c⟩
                  ⟨v.x, v.y, -c.e * v.z⟩ hsPP hsPM hsMP hsMM
                simp only [ea2] at es2
                have efp2 := flatPass_id_of_inside c ⟨p.x, p.y, -wallLimZ c⟩
                  ⟨v.x, v.y, -c.e * v.z⟩
                  (by show p.x ≤ wallLimX c; linarith [hbx.2])
                  (by show -wallLimX c ≤ p.x; linarith [hbx.1])
                  (by show -wallLimZ c ≤ wallLimZ c; linarith)
                  (le_refl _)
                simp only [efp2] at es2
                refine ⟨?_, ?_, ?_, ?_, ?_⟩
                · simp only [es]
                  simp
                · simp only [es, es2]
                · simp only [es, es2]
                · intro hpp _
                  exact absurd hpp hnPP
                · intro hx hz
                  exact absurd ⟨hx, hz⟩ hXp
              · have efp := flatPass_id_of_none c p v hXp hXm hZp hZm
                simp only [efp] at es
                refine ⟨?_, ?_, ?_, ?_, ?_⟩
                · simp only [es]
                  simp
                · simp only [es]
                · simp only [es]
                · intro hpp _
                  exact absurd hpp hnPP
                · intro hx hz
                  exact absurd ⟨hx, hz⟩ hXp

/-- The concrete witness boundary configuration is valid. -/
theorem carBounds0_valid : BCfg.Valid carBounds0 := by
  simp only [BCfg.Valid, carBounds0]
  refine ⟨by norm_num, by norm_num, by norm_num, by norm_num, le_refl 0, by norm_num, ?_⟩
  intro m hm
  exact Option.noConfusion hm

/-- The concrete witness engine configuration is valid. -/
theorem cfg0_valid : Cfg.Valid cfg0 := by
  simp only [Cfg.Valid, cfg0]
  norm_num

/-- Witness for C1: the concrete car boundary configuration is valid and
the property holds at a concrete out of bounds corner point. -/
theorem C1_boundary_exclusive_convergent_witness :
    BCfg.Valid carBounds0 ∧
    (((resolveBounds carBounds0 posW velW).arc = true →
      (resolveBounds carBounds0 posW velW).fx = false ∧
      (resolveBounds carBounds0 posW velW).fz = false) ∧
     (resolveBounds carBounds0 (resolveBounds carBounds0 posW velW).pos
        (resolveBounds carBounds0 posW velW).vel).pos
       = (resolveBounds carBounds0 posW velW).pos ∧
     (resolveBounds carBounds0 (resolveBounds carBounds0 posW velW).pos
        (resolveBounds carBounds0 posW velW).vel).vel
       = (resolveBounds carBounds0 posW velW).vel ∧
     (inSectorPP carBounds0 posW →
       (carBounds0.cR - carBounds0.hw)^2
         < (posW.x - cornerX carBounds0)^2 + (posW.z - cornerZ carBounds0)^2 →
       (resolveBounds carBounds0 posW velW).arc = true) ∧
     (wallLimX carBounds0 < posW.x → ¬ inZoneZ carBounds0 posW.z →
       (resolveBounds carBounds0 posW velW).fx = true ∧
       (resolveBounds carBounds0 posW velW).arc = false)) :=
  ⟨carBounds0_valid,
   C1_boundary_exclusive_convergent carBounds0 carBounds0_valid posW velW⟩

/-- Normalizing the zero vector yields the zero vector. -/
theorem safeNorm_zero : safeNorm V3.zero = V3.zero := by
  have h0 : speed V3.zero = 0 := by
    norm_num [speed, normSq, V3.zero]
  simp [safeNorm, h0]

/-- The norm of a uniformly scaled vector is the absolute scale times the
norm. -/
theorem speed_scale (a x y z : ℝ) : speed ⟨a*x, a*y, a*z⟩ = |a| * speed ⟨x, y, z⟩ := by
  simp only [speed, normSq]
  rw [show (a*x)^2 + (a*y)^2 + (a*z)^2 = a^2 * (x^2+y^2+z^2) by ring]
  rw [Real.sqrt_mul (sq_nonneg a), Real.sqrt_sq_eq_abs]

/-- The distance from a center to the point offset from it by a scaled
unit direction is the scale. -/
theorem dist3_offset (cP : V3) (m nx ny nz : ℝ) (hm : 0 ≤ m)
    (hn : nx^2 + ny^2 + nz^2 = 1) :
    dist3 cP ⟨cP.x + m * nx, cP.y + m * ny, cP.z + m * nz⟩ = m := by
  simp only [dist3]
  rw [show (cP.x + m*nx - cP.x)^2 + (cP.y + m*ny - cP.y)^2 + (cP.z + m*nz - cP.z)^2
      = m^2 * (nx^2+ny^2+nz^2) from by ring]
  rw [hn, mul_one, Real.sqrt_sq_eq_abs, abs_of_nonneg hm]

/-- The squared components of the unit impact direction sum to one. -/
theorem unit_dir_sum (cP bP : V3) (hD0 : 0 < dist3 cP bP) :
    ((bP.x - cP.x)/dist3 cP bP)^2 + ((bP.y - cP.y)/dist3 cP bP)^2 +
      ((bP.z - cP.z)/dist3 cP bP)^2 = 1 := by
  have hDsq : (dist3 cP bP)^2 = (bP.x - cP.x)^2 + (bP.y - cP.y)^2 + (bP.z - cP.z)^2 :=
    Real.sq_sqrt (by positivity)
  rw [show ((bP.x - cP.x)/dist3 cP bP)^2 + ((bP.y - cP.y)/dist3 cP bP)^2 +
      ((bP.z - cP.z)/dist3 cP bP)^2
      = ((bP.x - cP.x)^2 + (bP.y - cP.y)^2 + (bP.z - cP.z)^2) / (dist3 cP bP)^2 from by
    ring]
  rw [← hDsq, div_self (pow_ne_zero 2 hD0.ne')]

/-- The unit impact direction has norm one. -/
theorem unit_dir_speed (cP bP : V3) (hD0 : 0 < dist3 cP bP) :
    speed ⟨(bP.x - cP.x)/dist3 cP bP, (bP.y - cP.y)/dist3 cP bP,
      (bP.z - cP.z)/dist3 cP bP⟩ = 1 := by
  simp only [speed, normSq]
  rw [unit_dir_sum cP bP hD0, Real.sqrt_one]

/-- Normalizing the unit impact direction leaves it unchanged. -/
theorem unit_dir_safeNorm (cP bP : V3) (hD0 : 0 < dist3 cP bP) :
    safeNorm ⟨(bP.x - cP.x)/dist3 cP bP, (bP.y - cP.y)/dist3 cP bP,
        (bP.z - cP.z)/dist3 cP bP⟩
      = ⟨(bP.x - cP.x)/dist3 cP bP, (bP.y - cP.y)/dist3 cP bP,
        (bP.z - cP.z)/dist3 cP bP⟩ := by
  simp [safeNorm, unit_dir_speed cP bP hD0]

/-- C4: the collision resolver reports an effect exactly when the
car to ball center distance lies between the degenerate epsilon guard and
the minimum separation distance; outside that range neither the ball
position nor the ball velocity changes (the near zero distance case short
circuits); and inside the range a contact with both bodies at rest still
leaves the ball with strictly positive speed, by the enforced minimum
impulse floor. -/
theorem C4_collision_resolver (cfg : Cfg) (hv : Cfg.Valid cfg) (cP cV : V3)
    (carSpeed : ℝ) (bP bV : V3) :
    ((checkCarBall cfg cP cV carSpeed bP bV).hit = true ↔
      (COLLIDE_EPS ≤ dist3 cP bP ∧ dist3 cP bP ≤ minDist cfg)) ∧
    ((checkCarBall cfg cP cV carSpeed bP bV).hit = false →
      (checkCarBall cfg cP cV carSpeed bP bV).ballPos = bP ∧
      (checkCarBall cfg cP cV carSpeed bP bV).ballVel = bV) ∧
    (COLLIDE_EPS ≤ dist3 cP bP → dist3 cP bP ≤ minDist cfg →
      cV = V3.zero → bV = V3.zero →
      0 < speed (checkCarBall cfg cP cV carSpeed bP bV).ballVel) := by
  obtain ⟨h1v, h2v, h3v, h4v, h5v, h6v, h7v, h8v, h9v, h10v, h11v, h12v, h13v,
    hmi, h15v, h16v, h17v, h18v⟩ := hv
  by_cases hg : minDist cfg < dist3 cP bP ∨ dist3 cP bP < COLLIDE_EPS
  · have e : checkCarBall cfg cP cV carSpeed bP bV = ⟨false, bP, bV⟩ := by
      simp only [checkCarBall]
      rw [show speed (⟨bP.x - cP.x, bP.y - cP.y, bP.z - cP.z⟩ : V3) = dist3 cP bP
        from rfl]
      rw [if_pos hg]
    refine ⟨?_, ?_, ?_⟩
    · constructor
      · intro h
        simp only [e] at h
        exact absurd h (by simp)
      · intro hcon
        exfalso
        rcases hg with hg2 | hg2
        · exact absurd hcon.2 (not_le.mpr hg2)
        · exact absurd hcon.1 (not_le.mpr hg2)
    · intro _
      simp only [e]
      exact ⟨trivial, trivial⟩
    · intro h1 h2 _ _
      exfalso
      rcases hg with hg2 | hg2
      · exact absurd h2 (not_le.mpr hg2)
      · exact absurd h1 (not_le.mpr hg2)
  · have hstep1 : (checkCarBall cfg cP cV carSpeed bP bV).hit = true := by
      simp only [checkCarBall]
      rw [show speed (⟨bP.x - cP.x, bP.y - cP.y, bP.z - cP.z⟩ : V3) = dist3 cP bP
        from rfl]
      rw [if_neg hg]
    have hgor := hg
    push_neg at hg
    refine ⟨?_, ?_, ?_⟩
    · rw [hstep1]
      exact iff_of_true rfl ⟨hg.2, hg.1⟩
    · intro hfalse
      rw [hstep1] at hfalse
      exact absurd hfalse (by simp)
    · intro h1 h2 hcv hbv
      subst hcv
      subst hbv
      have hD0 : 0 < dist3 cP bP :=
        lt_of_lt_of_le (by norm_num [COLLIDE_EPS]) h1
      have himp : 0 < max cfg.minImp (cfg.hitK * carSpeed) :=
        lt_of_lt_of_le hmi (le_max_left _ _)
      simp only [checkCarBall]
      rw [show speed (⟨bP.x - cP.x, bP.y - cP.y, bP.z - cP.z⟩ : V3) = dist3 cP bP
        from rfl]
      rw [if_neg hgor]
      rw [safeNorm_zero]
      simp only [V3.zero, mul_zero, add_zero, zero_add]
      rw [unit_dir_safeNorm cP bP hD0]
      rw [speed_scale]
      rw [unit_dir_speed cP bP hD0, mul_one]
      rwa [abs_of_pos himp]

/-- C10: the minimum separation distance equals the ball active radius
plus 0.55 times the larger car footprint dimension, and after a resolved
hit the car to ball center distance is at least that value minus the 0.01
tolerance (it equals the minimum separation distance exactly). -/
theorem C10_min_separation (cfg : Cfg) (hv : Cfg.Valid cfg) (cP cV : V3)
    (carSpeed : ℝ) (bP bV : V3) :
    minDist cfg = cfg.BR + 11/20 * max cfg.CW cfg.CL ∧
    ((checkCarBall cfg cP cV carSpeed bP bV).hit = true →
      minDist cfg - 1/100 ≤ dist3 cP (checkCarBall cfg cP cV carSpeed bP bV).ballPos) := by
  obtain ⟨h1v, h2v, h3v, h4v, h5v, h6v, h7v, h8v, h9v, h10v, h11v, h12v, h13v,
    hmi, h15v, h16v, h17v, h18v⟩ := hv
  refine ⟨rfl, ?_⟩
  intro hhit
  by_cases hg : minDist cfg < dist3 cP bP ∨ dist3 cP bP < COLLIDE_EPS
  · exfalso
    have e : checkCarBall cfg cP cV carSpeed bP bV = ⟨false, bP, bV⟩ := by
      simp only [checkCarBall]
      rw [show speed (⟨bP.x - cP.x, bP.y - cP.y, bP.z - cP.z⟩ : V3) = dist3 cP bP
        from rfl]
      rw [if_pos hg]
    rw [e] at hhit
    exact absurd hhit (by simp)
  · have hg2 := hg
    push_neg at hg2
    have hD0 : 0 < dist3 cP bP :=
      lt_of_lt_of_le (by norm_num [COLLIDE_EPS]) hg2.2
    have hmd0 : 0 ≤ minDist cfg := by
      have hmax := mul_nonneg (by norm_num : (0:ℝ) ≤ 11/20)
        (le_trans h16v (le_max_left cfg.CW cfg.CL))
      unfold minDist
      linarith
    have hpos : (checkCarBall cfg cP cV carSpeed bP bV).ballPos =
        ⟨cP.x + minDist cfg * ((bP.x - cP.x)/dist3 cP bP),
         cP.y + minDist cfg * ((bP.y - cP.y)/dist3 cP bP),
         cP.z + minDist cfg * ((bP.z - cP.z)/dist3 cP bP)⟩ := by
      simp only [checkCarBall]
      rw [show speed (⟨bP.x - cP.x, bP.y - cP.y, bP.z - cP.z⟩ : V3) = dist3 cP bP
        from rfl]
      rw [if_neg hg]
    rw [hpos]
    rw [dist3_offset cP (minDist cfg) ((bP.x - cP.x)/dist3 cP bP)
      ((bP.y - cP.y)/dist3 cP bP) ((bP.z - cP.z)/dist3 cP bP) hmd0
      (unit_dir_sum cP bP hD0)]
    linarith

/-- Witness for C4 at the concrete configuration, a car at the origin and
the ball one unit away, both at rest. -/
theorem C4_collision_resolver_witness :
    Cfg.Valid cfg0 ∧
    (((checkCarBall cfg0 V3.zero V3.zero 0 ballW V3.zero).hit = true ↔
      (COLLIDE_EPS ≤ dist3 V3.zero ballW ∧ dist3 V3.zero ballW ≤ minDist cfg0)) ∧
     ((checkCarBall cfg0 V3.zero V3.zero 0 ballW V3.zero).hit = false →
      (checkCarBall cfg0 V3.zero V3.zero 0 ballW V3.zero).ballPos = ballW ∧
      (checkCarBall cfg0 V3.zero V3.zero 0 ballW V3.zero).ballVel = V3.zero) ∧
     (COLLIDE_EPS ≤ dist3 V3.zero ballW → dist3 V3.zero ballW ≤ minDist cfg0 →
      V3.zero = V3.zero → V3.zero = V3.zero →
      0 < speed (checkCarBall cfg0 V3.zero V3.zero 0 ballW V3.zero).ballVel)) :=
  ⟨cfg0_valid, C4_collision_resolver cfg0 cfg0_valid V3.zero V3.zero 0 ballW V3.zero⟩

/-- Witness for C10 at the concrete configuration. -/
theorem C10_min_separation_witness :
    Cfg.Valid cfg0 ∧
    (minDist cfg0 = cfg0.BR + 11/20 * max cfg0.CW cfg0.CL ∧
     ((checkCarBall cfg0 V3.zero V3.zero 0 ballW V3.zero).hit = true →
       minDist cfg0 - 1/100 ≤
         dist3 V3.zero (checkCarBall cfg0 V3.zero V3.zero 0 ballW V3.zero).ballPos)) :=
  ⟨cfg0_valid, C10_min_separation cfg0 cfg0_valid V3.zero V3.zero 0 ballW V3.zero⟩

/-- The square of a reflected component with restitution in the unit
interval does not exceed the square of the original component. -/
theorem reflect_sq_le (e w : ℝ) (he0 : 0 ≤ e) (he1 : e ≤ 1) : (-e * w)^2 ≤ w^2 := by
  nlinarith [mul_nonneg (mul_nonneg (sub_nonneg.mpr he1) he0) (sq_nonneg w),
    mul_nonneg (sub_nonneg.mpr he1) (sq_nonneg w)]

/-- Reflecting the outward radial component along a planar unit normal
with restitution in the unit interval does not increase the squared
velocity norm. -/
theorem reflect2_normSq_le (e vx vy vz nx nz : ℝ) (he0 : 0 ≤ e) (he1 : e ≤ 1)
    (hn : nx^2 + nz^2 = 1) :
    (vx - (1+e)*(vx*nx+vz*nz)*nx)^2 + vy^2 + (vz - (1+e)*(vx*nx+vz*nz)*nz)^2
      ≤ vx^2 + vy^2 + vz^2 := by
  have key : (vx - (1+e)*(vx*nx+vz*nz)*nx)^2 + vy^2 + (vz - (1+e)*(vx*nx+vz*nz)*nz)^2
      = vx^2 + vy^2 + vz^2 - (1+e)*(1-e)*(vx*nx+vz*nz)^2
        + (1+e)^2*(vx*nx+vz*nz)^2 * (nx^2+nz^2) - (1+e)^2*(vx*nx+vz*nz)^2 := by
    ring
  rw [key, hn, mul_one]
  have h2 : 0 ≤ (1+e)*(1-e)*(vx*nx+vz*nz)^2 :=
    mul_nonneg (mul_nonneg (by linarith) (by linarith)) (sq_nonneg _)
  linarith

/-- Squared norms are nonnegative. -/
theorem normSq_nonneg (v : V3) : 0 ≤ normSq v := by
  unfold normSq
  positivity

/-- The norm is monotone in the squared norm. -/
theorem speed_le_of_normSq_le (a b : V3) (h : normSq a ≤ normSq b) :
    speed a ≤ speed b := Real.sqrt_le_sqrt h

/-- The speed clamp caps the norm at the configured maximum. -/
theorem clampSpeed_le (cap : ℝ) (hcap : 0 ≤ cap) (v : V3) :
    speed (clampSpeed cap v) ≤ cap := by
  by_cases h : speed v ≤ cap
  · simp only [clampSpeed]
    rw [if_pos h]
    exact h
  · have hs0 : 0 < speed v := lt_of_le_of_lt hcap (not_le.mp h)
    simp only [clampSpeed]
    rw [if_neg h, speed_scale]
    rw [show speed (⟨v.x, v.y, v.z⟩ : V3) = speed v from rfl]
    rw [abs_of_nonneg (div_nonneg hcap hs0.le)]
    rw [div_mul_cancel₀ cap hs0.ne']

/-- The speed clamp keeps a nonnegative z velocity component
nonnegative. -/
theorem clampSpeed_z_nonneg (cap : ℝ) (hcap : 0 ≤ cap) (v : V3) (h : 0 ≤ v.z) :
    0 ≤ (clampSpeed cap v).z := by
  simp only [clampSpeed]
  split_ifs with hs
  · exact h
  · have hs0 : 0 < speed v := lt_of_le_of_lt hcap (not_le.mp hs)
    exact mul_nonneg (div_nonneg hcap hs0.le) h

/-- The flat wall pass does not increase the squared velocity norm. -/
theorem flatPass_vel_normSq (c : BCfg) (p v : V3) (he0 : 0 ≤ c.e) (he1 : c.e ≤ 1) :
    normSq (flatPass c p v).vel ≤ normSq v := by
  have hx2 : ((flatPass c p v).vel).x ^ 2 ≤ v.x^2 := by
    simp only [flatPass]
    split_ifs <;> first | exact reflect_sq_le c.e v.x he0 he1 | exact le_refl _
  have hz2 : ((flatPass c p v).vel).z ^ 2 ≤ v.z^2 := by
    simp only [flatPass]
    split_ifs <;> first | exact reflect_sq_le c.e v.z he0 he1 | exact le_refl _
  have hy : ((flatPass c p v).vel).y = v.y := rfl
  unfold normSq
  rw [hy]
  linarith

/-- One corner arc resolution does not increase the squared velocity
norm. -/
theorem arcFix_vel_normSq (c : BCfg) (ax az : ℝ) (p v : V3) (he0 : 0 ≤ c.e)
    (he1 : c.e ≤ 1) : normSq (arcFix c ax az p v).vel ≤ normSq v := by
  by_cases h : (c.cR - c.hw)^2 < (p.x - ax)^2 + (p.z - az)^2
  · have hdsq0 : 0 < (p.x - ax)^2 + (p.z - az)^2 := lt_of_le_of_lt (sq_nonneg _) h
    have hn : ((p.x - ax)/Real.sqrt ((p.x - ax)^2 + (p.z - az)^2))^2
        + ((p.z - az)/Real.sqrt ((p.x - ax)^2 + (p.z - az)^2))^2 = 1 := by
      rw [show ((p.x - ax)/Real.sqrt ((p.x - ax)^2 + (p.z - az)^2))^2
          + ((p.z - az)/Real.sqrt ((p.x - ax)^2 + (p.z - az)^2))^2
          = ((p.x - ax)^2 + (p.z - az)^2)
            / (Real.sqrt ((p.x - ax)^2 + (p.z - az)^2))^2 from by ring]
      rw [Real.sq_sqrt hdsq0.le, div_self hdsq0.ne']
    have hvel : (arcFix c ax az p v).vel
        = if 0 < v.x * ((p.x - ax)/Real.sqrt ((p.x - ax)^2 + (p.z - az)^2))
            + v.z * ((p.z - az)/Real.sqrt ((p.x - ax)^2 + (p.z - az)^2)) then
            ⟨v.x - (1 + c.e) * (v.x * ((p.x - ax)/Real.sqrt ((p.x - ax)^2 + (p.z - az)^2))
              + v.z * ((p.z - az)/Real.sqrt ((p.x - ax)^2 + (p.z - az)^2)))
              * ((p.x - ax)/Real.sqrt ((p.x - ax)^2 + (p.z - az)^2)),
             v.y,
             v.z - (1 + c.e) * (v.x * ((p.x - ax)/Real.sqrt ((p.x - ax)^2 + (p.z - az)^2))
              + v.z * ((p.z - az)/Real.sqrt ((p.x - ax)^2 + (p.z - az)^2)))
              * ((p.z - az)/Real.sqrt ((p.x - ax)^2 + (p.z - az)^2))⟩
          else v := by
      simp only [arcFix]
      rw [if_pos h]
    rw [hvel]
    split_ifs with hvr
    · unfold normSq
      exact reflect2_normSq_le c.e v.x v.y v.z _ _ he0 he1 hn
    · exact le_refl _
  · have hvel : (arcFix c ax az p v).vel = v := by
      simp only [arcFix]
      rw [if_neg h]
    rw [hvel]

/-- The corner dispatch does not increase the squared velocity norm. -/
theorem arcStage_vel_normSq (c : BCfg) (p v : V3) (he0 : 0 ≤ c.e) (he1 : c.e ≤ 1) :
    normSq (arcStage c p v).vel ≤ normSq v := by
  simp only [arcStage]
  split_ifs <;> first | exact arcFix_vel_normSq c _ _ p v he0 he1 | exact le_refl _

/-- One frame of boundary resolution does not increase the velocity
norm. -/
theorem resolveBounds_vel_speed (c : BCfg) (p v : V3) (he0 : 0 ≤ c.e)
    (he1 : c.e ≤ 1) : speed (resolveBounds c p v).vel ≤ speed v := by
  simp only [resolveBounds]
  split_ifs
  · exact le_refl _
  · exact le_refl _
  · exact speed_le_of_normSq_le _ _
      (le_trans (flatPass_vel_normSq c _ _ he0 he1) (arcStage_vel_normSq c p v he0 he1))

/-- C5: for every ball physics step during play, whatever velocity was
written to the ball before the step, the post step ball speed never
exceeds the configured cap plus any nonnegative epsilon. -/
theorem C5_ball_speed_cap (cfg : Cfg) (hv : Cfg.Valid cfg) (dt : ℝ) (p v : V3)
    (eps : ℝ) (heps : 0 ≤ eps) :
    speed (updateBall cfg .playing dt p v).vel ≤ cfg.cap + eps := by
  obtain ⟨h1v, h2v, h3v, h4v, h5v, h6v, h7v, h8v, h9v, h10v, h11v, h12v, h13v,
    hmi, h15v, h16v, h17v, h18v⟩ := hv
  simp only [updateBall]
  rw [if_neg (show ¬ (Phase.playing = Phase.countdown) by simp)]
  refine le_trans (le_trans (resolveBounds_vel_speed (ballB cfg) _ _ h12v h13v)
    (clampSpeed_le cfg.cap h9v _)) (by linarith)

/-- Witness for C5: injecting velocity (100, 100, 100) yields a post step
speed of at most the cap 80 plus epsilon 2. -/
theorem C5_ball_speed_cap_witness :
    Cfg.Valid cfg0 ∧ (0:ℝ) ≤ 2 ∧
    speed (updateBall cfg0 .playing (1/60) posW injW).vel ≤ cfg0.cap + 2 :=
  ⟨cfg0_valid, by norm_num,
   C5_ball_speed_cap cfg0 cfg0_valid (1/60) posW injW 2 (by norm_num)⟩

/-- A ball past the positive z end plane inside the goal mouth raises the
goal event for the ai side. -/
theorem resolveBounds_scored_ai (c : BCfg) (p v : V3) (h1 : inMouth c p.x)
    (h2 : c.FL/2 < p.z) : (resolveBounds c p v).scored = some .ai := by
  simp only [resolveBounds]
  rw [if_pos ⟨h1, h2⟩]

/-- A ball past the negative z end plane inside the goal mouth raises the
goal event for the player side. -/
theorem resolveBounds_scored_player (c : BCfg) (p v : V3) (hFL : 0 < c.FL)
    (h1 : inMouth c p.x) (h2 : p.z < -(c.FL/2)) :
    (resolveBounds c p v).scored = some .player := by
  have hn1 : ¬ (inMouth c p.x ∧ c.FL/2 < p.z) := by
    intro hh
    linarith [hh.2]
  simp only [resolveBounds]
  rw [if_neg hn1, if_pos ⟨h1, h2⟩]

/-- A goal event is raised only for a ball whose resolved lateral offset
lies inside the goal mouth. -/
theorem resolveBounds_isSome_mouth (c : BCfg) (p v : V3) :
    (resolveBounds c p v).scored.isSome = true →
    inMouth c ((resolveBounds c p v).pos.x) := by
  simp only [resolveBounds]
  split_ifs with hc1 hc2
  · intro _
    exact hc1.1
  · intro _
    exact hc2.1
  · intro h
    exact absurd h (by simp)

/-- The ball boundary view of a valid engine configuration is valid. -/
theorem ballB_valid (cfg : Cfg) (hv : Cfg.Valid cfg) : (ballB cfg).Valid := by
  obtain ⟨h1v, h2v, h3v, h4v, h5v, h6v, h7v, h8v, h9v, h10v, h11v, h12v, h13v,
    hmi, h15v, h16v, h17v, h18v⟩ := hv
  refine ⟨h5v, h6v, h3v, h4v, h12v, h13v, ?_⟩
  intro m hm
  have hm2 : cfg.goalW/2 = m := by
    injection hm
  constructor
  · rw [← hm2]
    linarith
  · rw [← hm2]
    show cfg.goalW/2 + cfg.cR ≤ cfg.FW/2
    exact h8v

/-- A ball overlapping an end wall outside the goal mouth and outside the
corner zones bounces: no goal event, the z coordinate clamps to the wall
contact plane, and the outgoing z velocity is not outward. -/
theorem bounce_end_wall (cfg : Cfg) (hv : Cfg.Valid cfg) (q w : V3)
    (hqz : cfg.FL/2 - cfg.BR < q.z) (hm : cfg.goalW/2 ≤ |q.x|)
    (hflat : |q.x| ≤ cfg.FW/2 - cfg.cR) (hwz : 0 ≤ w.z) :
    (resolveBounds (ballB cfg) q (clampSpeed cfg.cap w)).scored = none ∧
    (resolveBounds (ballB cfg) q (clampSpeed cfg.cap w)).pos.z = cfg.FL/2 - cfg.BR ∧
    (resolveBounds (ballB cfg) q (clampSpeed cfg.cap w)).vel.z ≤ 0 := by
  have hvv := hv
  obtain ⟨h1v, h2v, h3v, h4v, h5v, h6v, h7v, h8v, h9v, h10v, h11v, h12v, h13v,
    hmi, h15v, h16v, h17v, h18v⟩ := hvv
  have hbv : (ballB cfg).Valid := ballB_valid cfg hv
  have hm' : ¬ inMouth (ballB cfg) q.x := by
    simp only [inMouth, ballB]
    exact not_lt.mpr hm
  have hn1 : ¬ (inMouth (ballB cfg) q.x ∧ (ballB cfg).FL/2 < q.z) := fun hh => hm' hh.1
  have hn2 : ¬ (inMouth (ballB cfg) q.x ∧ q.z < -((ballB cfg).FL/2)) := fun hh => hm' hh.1
  have es := resolveBounds_solid (ballB cfg) q (clampSpeed cfg.cap w) hn1 hn2
  have habs := le_abs_self q.x
  have hnabs := neg_abs_le q.x
  have babs1 : q.x ≤ cornerX (ballB cfg) := by
    show q.x ≤ cfg.FW/2 - cfg.cR
    linarith
  have babs2 : -(cornerX (ballB cfg)) ≤ q.x := by
    show -(cfg.FW/2 - cfg.cR) ≤ q.x
    linarith
  have hsPP : ¬ inSectorPP (ballB cfg) q := fun h => absurd h.1 (not_lt.mpr babs1)
  have hsPM : ¬ inSectorPM (ballB cfg) q := fun h => absurd h.1 (not_lt.mpr babs1)
  have hsMP : ¬ inSectorMP (ballB cfg) q := fun h => absurd h.1 (not_lt.mpr babs2)
  have hsMM : ¬ inSectorMM (ballB cfg) q := fun h => absurd h.1 (not_lt.mpr babs2)
  have ea := arcStage_none (ballB cfg) q (clampSpeed cfg.cap w) hsPP hsPM hsMP hsMM
  simp only [ea] at es
  have hz2 : wallLimZ (ballB cfg) < q.z := by
    show cfg.FL/2 - cfg.BR < q.z
    exact hqz
  have hnzx : ¬ inZoneX (ballB cfg) q.x := by
    intro h
    rcases h with h | h
    · exact absurd h (not_lt.mpr babs2)
    · exact absurd h (not_lt.mpr babs1)
  have efp := flatPass_hitZp (ballB cfg) hbv q (clampSpeed cfg.cap w) hz2 hnzx hm'
  simp only [efp] at es
  refine ⟨?_, ?_, ?_⟩
  · simp only [es]
  · simp only [es]
    rfl
  · simp only [es]
    have hcl : 0 ≤ (clampSpeed cfg.cap w).z := clampSpeed_z_nonneg cfg.cap h9v w hwz
    have hre : 0 ≤ (ballB cfg).e := h12v
    nlinarith [mul_nonneg hre hcl]

set_option maxHeartbeats 1600000 in
/-- C3: over any valid configuration, a ball past an end plane with
lateral offset inside the goal mouth and outward velocity scores for the
opposing side in the very next physics frame (the positive z end belongs
to the player, so it scores for the ai side, and symmetrically); a ball
overlapping the end wall laterally outside the goal mouth in the flat wall
region never raises a goal event and instead has its position clamped to
the wall and its outgoing velocity corrected; and any frame that raises a
goal event has its resolved lateral offset inside the goal mouth, so a
ball kept laterally outside the mouth never scores. -/
theorem C3_goal_mouth (cfg : Cfg) (hv : Cfg.Valid cfg) :
    (∀ p v : V3, ∀ dt : ℝ, 0 ≤ dt → cfg.FL/2 < p.z → |p.x| < cfg.goalW/2 →
      v.x = 0 → 0 ≤ v.z →
      (updateBall cfg .playing dt p v).scored = some .ai) ∧
    (∀ p v : V3, ∀ dt : ℝ, 0 ≤ dt → p.z < -(cfg.FL/2) → |p.x| < cfg.goalW/2 →
      v.x = 0 → v.z ≤ 0 →
      (updateBall cfg .playing dt p v).scored = some .player) ∧
    (∀ p v : V3, ∀ dt : ℝ, 0 ≤ dt → cfg.FL/2 - cfg.BR < p.z →
      cfg.goalW/2 ≤ |p.x| → |p.x| ≤ cfg.FW/2 - cfg.cR → v.x = 0 → 0 ≤ v.z →
      (updateBall cfg .playing dt p v).scored = none ∧
      (updateBall cfg .playing dt p v).pos.z = cfg.FL/2 - cfg.BR ∧
      (updateBall cfg .playing dt p v).vel.z ≤ 0) ∧
    (∀ p v : V3, ∀ dt : ℝ,
      (updateBall cfg .playing dt p v).scored.isSome = true →
      |(updateBall cfg .playing dt p v).pos.x| < cfg.goalW/2) := by
  have hvv := hv
  obtain ⟨h1v, h2v, h3v, h4v, h5v, h6v, h7v, h8v, h9v, h10v, h11v, h12v, h13v,
    hmi, h15v, h16v, h17v, h18v⟩ := hvv
  have hFL0 : 0 < (ballB cfg).FL := by
    show 0 < cfg.FL
    linarith
  refine ⟨?_, ?_, ?_, ?_⟩
  · intro p v dt hdt hz hx hvx hvz
    simp only [updateBall]
    rw [if_neg (show ¬ (Phase.playing = Phase.countdown) by simp)]
    by_cases hgr : p.y + (v.y - cfg.grav * dt) * dt < cfg.BR
    · rw [if_pos hgr]
      apply resolveBounds_scored_ai
      · simp only [inMouth, ballB]
        rw [hvx, zero_mul, add_zero]
        exact hx
      · show cfg.FL/2 < p.z + v.z * dt
        nlinarith [mul_nonneg hvz hdt]
    · rw [if_neg hgr]
      apply resolveBounds_scored_ai
      · simp only [inMouth, ballB]
        rw [hvx, zero_mul, add_zero]
        exact hx
      · show cfg.FL/2 < p.z + v.z * dt
        nlinarith [mul_nonneg hvz hdt]
  · intro p v dt hdt hz hx hvx hvz
    simp only [updateBall]
    rw [if_neg (show ¬ (Phase.playing = Phase.countdown) by simp)]
    by_cases hgr : p.y + (v.y - cfg.grav * dt) * dt < cfg.BR
    · rw [if_pos hgr]
      apply resolveBounds_scored_player _ _ _ hFL0
      · simp only [inMouth, ballB]
        rw [hvx, zero_mul, add_zero]
        exact hx
      · show p.z + v.z * dt < -(cfg.FL/2)
        nlinarith [mul_nonneg (neg_nonneg.mpr hvz) hdt]
    · rw [if_neg hgr]
      apply resolveBounds_scored_player _ _ _ hFL0
      · simp only [inMouth, ballB]
        rw [hvx, zero_mul, add_zero]
        exact hx
      · show p.z + v.z * dt < -(cfg.FL/2)
        nlinarith [mul_nonneg (neg_nonneg.mpr hvz) hdt]
  · intro p v dt hdt hz houtm hflat hvx hvz
    simp only [updateBall]
    rw [if_neg (show ¬ (Phase.playing = Phase.countdown) by simp)]
    by_cases hgr : p.y + (v.y - cfg.grav * dt) * dt < cfg.BR
    · rw [if_pos hgr]
      by_cases hvy : p.y + (v.y - cfg.grav * dt) * dt < cfg.BR ∧ v.y - cfg.grav * dt < 0
      · rw [if_pos hvy]
        apply bounce_end_wall cfg hv
        · show cfg.FL/2 - cfg.BR < p.z + v.z * dt
          nlinarith [mul_nonneg hvz hdt]
        · show cfg.goalW/2 ≤ |p.x + v.x * dt|
          rw [hvx, zero_mul, add_zero]
          exact houtm
        · show |p.x + v.x * dt| ≤ cfg.FW/2 - cfg.cR
          rw [hvx, zero_mul, add_zero]
          exact hflat
        · show (0:ℝ) ≤ v.z
          exact hvz
      · rw [if_neg hvy]
        apply bounce_end_wall cfg hv
        · show cfg.FL/2 - cfg.BR < p.z + v.z * dt
          nlinarith [mul_nonneg hvz hdt]
        · show cfg.goalW/2 ≤ |p.x + v.x * dt|
          rw [hvx, zero_mul, add_zero]
          exact houtm
        · show |p.x + v.x * dt| ≤ cfg.FW/2 - cfg.cR
          rw [hvx, zero_mul, add_zero]
          exact hflat
        · show (0:ℝ) ≤ v.z
          exact hvz
    · rw [if_neg hgr]
      rw [if_neg (fun hh => hgr hh.1)]
      apply bounce_end_wall cfg hv
      · show cfg.FL/2 - cfg.BR < p.z + v.z * dt
        nlinarith [mul_nonneg hvz hdt]
      · show cfg.goalW/2 ≤ |p.x + v.x * dt|
        rw [hvx, zero_mul, add_zero]
        exact houtm
      · show |p.x + v.x * dt| ≤ cfg.FW/2 - cfg.cR
        rw [hvx, zero_mul, add_zero]
        exact hflat
      · show (0:ℝ) ≤ v.z
        exact hvz
  · intro p v dt h
    simp only [updateBall] at h ⊢
    rw [if_neg (show ¬ (Phase.playing = Phase.countdown) by simp)] at h ⊢
    have hm := resolveBounds_isSome_mouth (ballB cfg) _ _ h
    simp only [inMouth, ballB] at hm
    exact hm

/-- Witness for C3: the concrete configuration is valid and the property
holds for it. -/
theorem C3_goal_mouth_witness :
    Cfg.Valid cfg0 ∧
    ((∀ p v : V3, ∀ dt : ℝ, 0 ≤ dt → cfg0.FL/2 < p.z → |p.x| < cfg0.goalW/2 →
      v.x = 0 → 0 ≤ v.z →
      (updateBall cfg0 .playing dt p v).scored = some .ai) ∧
     (∀ p v : V3, ∀ dt : ℝ, 0 ≤ dt → p.z < -(cfg0.FL/2) → |p.x| < cfg0.goalW/2 →
      v.x = 0 → v.z ≤ 0 →
      (updateBall cfg0 .playing dt p v).scored = some .player) ∧
     (∀ p v : V3, ∀ dt : ℝ, 0 ≤ dt → cfg0.FL/2 - cfg0.BR < p.z →
      cfg0.goalW/2 ≤ |p.x| → |p.x| ≤ cfg0.FW/2 - cfg0.cR → v.x = 0 → 0 ≤ v.z →
      (updateBall cfg0 .playing dt p v).scored = none ∧
      (updateBall cfg0 .playing dt p v).pos.z = cfg0.FL/2 - cfg0.BR ∧
      (updateBall cfg0 .playing dt p v).vel.z ≤ 0) ∧
     (∀ p v : V3, ∀ dt : ℝ,
      (updateBall cfg0 .playing dt p v).scored.isSome = true →
      |(updateBall cfg0 .playing dt p v).pos.x| < cfg0.goalW/2)) :=
  ⟨cfg0_valid, C3_goal_mouth cfg0 cfg0_valid⟩

/-- C2: during the countdown phase the ball physics step forces the ball
velocity to exactly zero, for every velocity written to the ball before
the step, and leaves the ball in place with no goal event. -/
theorem C2_countdown_freezes_ball (cfg : Cfg) (dt : ℝ) (p v : V3) :
    (updateBall cfg .countdown dt p v).vel = V3.zero ∧
    (updateBall cfg .countdown dt p v).pos = p ∧
    (updateBall cfg .countdown dt p v).scored = none := by
  refine ⟨?_, ?_, ?_⟩ <;> simp [updateBall]

/-- C6: onGoal for the player side from playing immediately sets the phase
to goal and increments the orange counter by exactly one, leaving the blue
counter unchanged; symmetrically for the ai side; and the alternating
sequence player, ai, player accumulates two on the orange side and one on
the blue side. -/
theorem C6_onGoal_scoring (s : MatchState) (h : s.phase = .playing) :
    (onGoal .player s).phase = .goal ∧
    (onGoal .player s).scoreO = s.scoreO + 1 ∧
    (onGoal .player s).scoreB = s.scoreB ∧
    (onGoal .ai s).phase = .goal ∧
    (onGoal .ai s).scoreB = s.scoreB + 1 ∧
    (onGoal .ai s).scoreO = s.scoreO ∧
    (onGoal .player (setPlaying (onGoal .ai (setPlaying (onGoal .player s))))).scoreO
      = s.scoreO + 2 ∧
    (onGoal .player (setPlaying (onGoal .ai (setPlaying (onGoal .player s))))).scoreB
      = s.scoreB + 1 := by
  simp [onGoal, setPlaying, h]

/-- Witness for C6: from a fresh playing state the sequence player, ai,
player yields the score two to one. -/
theorem C6_onGoal_scoring_witness :
    matchS0.phase = .playing ∧
    ((onGoal .player matchS0).phase = .goal ∧
     (onGoal .player matchS0).scoreO = matchS0.scoreO + 1 ∧
     (onGoal .player matchS0).scoreB = matchS0.scoreB ∧
     (onGoal .ai matchS0).phase = .goal ∧
     (onGoal .ai matchS0).scoreB = matchS0.scoreB + 1 ∧
     (onGoal .ai matchS0).scoreO = matchS0.scoreO ∧
     (onGoal .player (setPlaying (onGoal .ai (setPlaying (onGoal .player matchS0))))).scoreO
       = matchS0.scoreO + 2 ∧
     (onGoal .player (setPlaying (onGoal .ai (setPlaying (onGoal .player matchS0))))).scoreB
       = matchS0.scoreB + 1) :=
  ⟨rfl, C6_onGoal_scoring matchS0 rfl⟩

/-- C7: when the clock reaches its limit while playing in regulation with a
finite duration, unequal scores move the match to gameover while equal
scores move it to the overtime announcement, never directly to gameover,
set golden goal mode, and the announcement then returns to playing. -/
theorem C7_time_expiry (s : MatchState) (dt d : Rat) (hp : s.phase = .playing)
    (hot : s.overtime = false) (hd : s.duration = some d)
    (ht : s.gameTime - dt ≤ 0) :
    (s.scoreO ≠ s.scoreB → (tickClock dt s).phase = .gameover) ∧
    (s.scoreO = s.scoreB →
      (tickClock dt s).phase = .overtime_announce ∧
      (tickClock dt s).phase ≠ .gameover ∧
      (tickClock dt s).overtime = true ∧
      (finishOvertimeAnnounce (tickClock dt s)).phase = .playing ∧
      (finishOvertimeAnnounce (tickClock dt s)).overtime = true) := by
  constructor
  · intro hne
    simp [tickClock, endGame, hp, hd, hot, ht, hne]
  · intro heq
    simp [tickClock, finishOvertimeAnnounce, hp, hd, hot, ht, heq]

/-- Witness for C7 at a tied state sitting at the clock limit. -/
theorem C7_time_expiry_witness :
    matchS1.phase = .playing ∧ matchS1.overtime = false ∧
    matchS1.duration = some 300 ∧ matchS1.gameTime - 1/60 ≤ 0 ∧
    ((matchS1.scoreO ≠ matchS1.scoreB → (tickClock (1/60) matchS1).phase = .gameover) ∧
     (matchS1.scoreO = matchS1.scoreB →
       (tickClock (1/60) matchS1).phase = .overtime_announce ∧
       (tickClock (1/60) matchS1).phase ≠ .gameover ∧
       (tickClock (1/60) matchS1).overtime = true ∧
       (finishOvertimeAnnounce (tickClock (1/60) matchS1)).phase = .playing ∧
       (finishOvertimeAnnounce (tickClock (1/60) matchS1)).overtime = true)) :=
  ⟨rfl, rfl, rfl, by norm_num [matchS1],
   C7_time_expiry matchS1 (1/60) 300 rfl rfl rfl (by norm_num [matchS1])⟩

/-- C8: a car within pickup range of an active big pad has its fuel set to
exactly 100, within range of an active small pad its fuel gains exactly 12
capped at 100, the pad deactivates on pickup, and an inactive pad
reactivates exactly when its respawn timer has counted down to zero, never
earlier. -/
theorem C8_boost_pads (fuel : Rat) (p : Pad) (carX carZ dt : Rat)
    (hact : p.active = true)
    (hrange : (carX - p.padX)^2 + (carZ - p.padZ)^2 ≤ PAD_RANGE_SQ)
    (_hfuel : fuel ≤ 100) :
    (p.big = true → (collectPad fuel p carX carZ).1 = 100) ∧
    (p.big = false → (collectPad fuel p carX carZ).1 = min 100 (fuel + 12)) ∧
    (collectPad fuel p carX carZ).2.active = false ∧
    (∀ q : Pad, q.active = false →
      ((tickPad dt q).active = true ↔ q.respawnT ≤ dt)) := by
  refine ⟨?_, ?_, ?_, ?_⟩
  · intro hb
    simp [collectPad, hact, hrange, hb]
  · intro hb
    simp [collectPad, hact, hrange, hb]
  · simp [collectPad, hact, hrange]
  · intro q hq
    by_cases hle : q.respawnT - dt ≤ 0
    · simp [tickPad, hq, hle, sub_nonpos.mp hle]
    · have h2 : ¬ q.respawnT ≤ dt := fun h => hle (by linarith)
      simp [tickPad, hq, hle, h2]

/-- Witness for C8: fuel 50 on a small pad in range becomes 62. -/
theorem C8_boost_pads_witness :
    pad0.active = true ∧
    ((0 : Rat) - pad0.padX)^2 + ((0 : Rat) - pad0.padZ)^2 ≤ PAD_RANGE_SQ ∧
    (50 : Rat) ≤ 100 ∧
    ((pad0.big = true → (collectPad 50 pad0 0 0).1 = 100) ∧
     (pad0.big = false → (collectPad 50 pad0 0 0).1 = min 100 (50 + 12)) ∧
     (collectPad 50 pad0 0 0).2.active = false ∧
     (∀ q : Pad, q.active = false →
       ((tickPad 1 q).active = true ↔ q.respawnT ≤ 1))) :=
  ⟨rfl, by norm_num [pad0, PAD_RANGE_SQ], by norm_num,
   C8_boost_pads 50 pad0 0 0 1 rfl (by norm_num [pad0, PAD_RANGE_SQ]) (by norm_num)⟩

/-- C9: triggerDemo immediately sets the demolished flag and zeroes the
velocity, and across every subsequent frame the flag stays true exactly
while the respawn countdown is still positive, returning to false exactly
when the timer has counted down to zero or below and never earlier. -/
theorem C9_demolition (d : DemoState) (dt : Rat) (hdt : 0 < dt) :
    (triggerDemo d).demolished = true ∧
    (triggerDemo d).velX = 0 ∧ (triggerDemo d).velY = 0 ∧ (triggerDemo d).velZ = 0 ∧
    ∀ n : Nat, (((tickDemo dt)^[n]) (triggerDemo d)).demolished = true ↔
      (n : Rat) * dt < DEMO_RESPAWN_TIME := by
  refine ⟨rfl, rfl, rfl, rfl, ?_⟩
  intro n
  have h := tickDemo_iter_demolished dt hdt n (triggerDemo d) rfl
    (by norm_num [triggerDemo, DEMO_RESPAWN_TIME])
  simpa [triggerDemo] using h

/-- Witness for C9 at a one second frame. -/
theorem C9_demolition_witness :
    (0 : Rat) < 1 ∧
    ((triggerDemo demo0).demolished = true ∧
     (triggerDemo demo0).velX = 0 ∧ (triggerDemo demo0).velY = 0 ∧
     (triggerDemo demo0).velZ = 0 ∧
     ∀ n : Nat, (((tickDemo 1)^[n]) (triggerDemo demo0)).demolished = true ↔
       (n : Rat) * 1 < DEMO_RESPAWN_TIME) :=
  ⟨by norm_num, C9_demolition demo0 1 (by norm_num)⟩

end RocketArena
